import Mathlib

/-!
# Verification of the `colorspace` spectral core (`vspd.rs`, `interpolation.rs`)

A shallow embedding of the spectral-power-distribution engine of the
`colorspace` Rust crate.  Numbers (`f64` in the source) are modelled as exact
rationals `ℚ`; Rust panics and `unwrap` failures are modelled by `Option`.
Vector indexing (`Vec` access which would panic out of range in Rust) is
modelled with `List.getD`; all theorems below keep indices in range, so the
default value is never observed on the source-reachable paths.

Every definition mirrors the Rust function of the same name.  The two Rust
`while` loops inside `VSPD::extrapolate` are modelled with an explicit fuel
that is (provably) large enough whenever the loop terminates in the source
(positive step); for a non-positive step the source would not terminate, and
the model truncates instead.
-/

set_option maxRecDepth 100000

namespace Colorspace

/-- `Sample { nm, v }` from `vspd.rs`: a (wavelength, value) pair. -/
structure Sample where
  nm : ℚ
  v : ℚ
deriving DecidableEq, Repr

/-- `Interval<f64>` from `vspd.rs`: a uniform sampling step or a marker for
irregular spacing. -/
inductive Interval where
  | uniform (i : ℚ)
  | varying
deriving DecidableEq, Repr

/-- `SpdShape<f64>` from `vspd.rs`: start / end wavelength plus interval.
(`end` is a Lean keyword, hence the field name `end_`.) -/
structure SpdShape where
  start : ℚ
  end_ : ℚ
  interval : Interval
deriving DecidableEq, Repr

/-- `SpdShape::new`: a uniform shape. -/
def SpdShape.new (start end_ interval : ℚ) : SpdShape :=
  ⟨start, end_, Interval.uniform interval⟩

/-- `SpdShape::astm_e308()`: 360–780nm at 1nm. -/
def SpdShape.astm_e308 : SpdShape :=
  ⟨360, 780, Interval.uniform 1⟩

/-- Truncation of a rational toward zero (the semantics of Rust's
`f64 as usize` cast and of `ToPrimitive::to_usize` after its range check). -/
def ratTrunc (q : ℚ) : ℤ :=
  if q < 0 then -(⌊-q⌋) else ⌊q⌋

/-- `num_traits::ToPrimitive::to_usize` on `f64`: `None` outside the usize
range (the enclosing `unwrap` panics there), otherwise truncation toward
zero.  The upper bound `2^64` is the `usize::MAX` range check. -/
def toUsize (q : ℚ) : Option ℕ :=
  if -1 < q ∧ q < 2 ^ 64 then some (ratTrunc q).toNat else none

/-- `SpdShape::iter()`: the wavelengths `start + k·interval`,
`k = 0 .. (end-start)/interval` (truncated).  The source is `unreachable!`
for a varying interval and `unwrap`s the `to_usize`, both modelled as
`none`. -/
def SpdShape.iterList (s : SpdShape) : Option (List ℚ) :=
  match s.interval with
  | Interval.varying => none
  | Interval.uniform interval =>
    (toUsize ((s.end_ - s.start) / interval)).map fun n =>
      (List.range (n + 1)).map fun (k : ℕ) => s.start + (k : ℚ) * interval

/-- Margin test of `float_cmp::approx_eq` with `F64Margin { ulps: 2, epsilon }`.
The epsilon clause is the deciding one for wavelength-sized values (2 ulps of
a number below `2^42` is smaller than `1e-11`), so the ULP clause of the
source — not expressible over `ℚ` — is dropped. -/
def approxEqEps (a b eps : ℚ) : Bool :=
  |a - b| ≤ eps

/-- `calculate_interval` from `vspd.rs`: assumes the delta of the first two
samples and scans `for i in 1..samples.len() - 1`, comparing the delta
`samples[i].nm - samples[i-1].nm` against it with margin
`{ ulps: 2, epsilon: 1.0e-11 }`.  (The source panics below 2 samples; that
path is never taken under the theorems' hypotheses.) -/
def calculate_interval (samples : List Sample) : Interval :=
  let assumed := (samples.getD 1 ⟨0, 0⟩).nm - (samples.getD 0 ⟨0, 0⟩).nm
  if (List.range' 1 (samples.length - 2)).all fun i =>
      approxEqEps ((samples.getD i ⟨0, 0⟩).nm - (samples.getD (i - 1) ⟨0, 0⟩).nm)
        assumed (1e-11) then
    Interval.uniform assumed
  else
    Interval.varying

/-- `calculate_shape` from `vspd.rs`: first/last wavelength plus the derived
interval. -/
def calculate_shape (samples : List Sample) : SpdShape :=
  { start := (samples.headD ⟨0, 0⟩).nm
    end_ := (samples.getLastD ⟨0, 0⟩).nm
    interval := calculate_interval samples }

/-- `VSPD` from `vspd.rs`: a sample list plus its derived shape.  Equality of
the model coincides with the source's `PartialEq` (same length, same shape,
samples pairwise equal). -/
structure VSPD where
  samples : List Sample
  shape : SpdShape
deriving DecidableEq, Repr

/-- `VSPD::new`. -/
def VSPD.new (samples : List Sample) : VSPD :=
  ⟨samples, calculate_shape samples⟩

/-- `VSPD::start()`. -/
def VSPD.start (spd : VSPD) : ℚ := spd.shape.start

/-- `VSPD::end()`. -/
def VSPD.stop (spd : VSPD) : ℚ := spd.shape.end_

/-- `VSPD::values()`. -/
def VSPD.values (spd : VSPD) : List ℚ := spd.samples.map (·.v)

/-- `VSPD::wavelengths()`. -/
def VSPD.wavelengths (spd : VSPD) : List ℚ := spd.samples.map (·.nm)

/-! ## Sprague interpolation (`interpolation.rs`) -/

/-- `SpragueCoefficients::coeff_c0` for `f64`. -/
def coeff_c0 : List ℚ := [884, -1960, 3033, -2648, 1080, -180]

/-- `SpragueCoefficients::coeff_c1` for `f64`. -/
def coeff_c1 : List ℚ := [508, -540, 488, -367, 144, -24]

/-- `SpragueCoefficients::coeff_c2` for `f64`. -/
def coeff_c2 : List ℚ := [-24, 144, -367, 488, -540, 508]

/-- `SpragueCoefficients::coeff_c3` for `f64`. -/
def coeff_c3 : List ℚ := [-180, 1080, -2648, 3033, -1960, 884]

/-- `SpragueCoefficients::coeff_a` for `f64`: the six quintic coefficients
from the six neighbouring padded samples.  The source indexes `r[i-2]`,
`r[i-1]`; `evaluate` clamps `i ≥ 2`, so the `Nat` subtraction agrees with the
source's. -/
def coeff_a (r : List ℚ) (i : ℕ) : List ℚ :=
  let g : ℕ → ℚ := fun j => r.getD j 0
  [g i,
   (2 * g (i - 2) - 16 * g (i - 1) + 16 * g (i + 1) - 2 * g (i + 2)) / 24,
   (-g (i - 2) + 16 * g (i - 1) - 30 * g i + 16 * g (i + 1) - g (i + 2)) / 24,
   (-9 * g (i - 2) + 39 * g (i - 1) - 70 * g i + 66 * g (i + 1) - 33 * g (i + 2)
      + 7 * g (i + 3)) / 24,
   (13 * g (i - 2) - 64 * g (i - 1) + 126 * g i - 124 * g (i + 1) + 61 * g (i + 2)
      - 12 * g (i + 3)) / 24,
   (-5 * g (i - 2) + 25 * g (i - 1) - 50 * g i + 50 * g (i + 1) - 25 * g (i + 2)
      + 5 * g (i + 3)) / 24]

/-- `InterpolatorSprague<f64>`: the padded knot and value tables. -/
structure InterpolatorSprague where
  x : List ℚ
  y : List ℚ
deriving DecidableEq, Repr

/-- `InterpolatorSprague::new`: pads two synthetic samples on each side, the
pad values being fixed dot products of the first/last six samples divided by
209 (the Rust `zip` truncates at the shorter sequence, as does `List.zip`). -/
def InterpolatorSprague.new (vspd : VSPD) : InterpolatorSprague :=
  let first := (vspd.samples.headD ⟨0, 0⟩).nm
  let last := (vspd.samples.getLastD ⟨0, 0⟩).nm
  let interval := (vspd.samples.getD 1 ⟨0, 0⟩).nm - first
  let x : List ℚ :=
    (first - interval * 2) :: (first - interval) ::
      (vspd.samples.map (·.nm) ++ [last + interval, last + interval * 2])
  let y1 := ((coeff_c0.zip vspd.samples).map fun p => p.1 * p.2.v).sum
  let y2 := ((coeff_c1.zip vspd.samples).map fun p => p.1 * p.2.v).sum
  let y3 := ((coeff_c2.reverse.zip vspd.samples.reverse).map fun p => p.1 * p.2.v).sum
  let y4 := ((coeff_c3.reverse.zip vspd.samples.reverse).map fun p => p.1 * p.2.v).sum
  let y : List ℚ :=
    (y1 / 209) :: (y2 / 209) :: (vspd.samples.map (·.v) ++ [y3 / 209, y4 / 209])
  ⟨x, y⟩

/-- `InterpolatorSprague::evaluate`: linear scan for the first knot exceeding
`x` (`Iterator::position`, whose `unwrap` panic is `none` here), an index
underflow when that position is `0` (`none`), clamping of the interval index
into `[2, len-4]`, then the quintic in the normalised offset `dx`. -/
def InterpolatorSprague.evaluate (interp : InterpolatorSprague) (x : ℚ) : Option ℚ :=
  match interp.x.findIdx? (fun t => decide (x < t)) with
  | none => none
  | some 0 => none
  | some (p + 1) =>
    let i := min (max p 2) (interp.x.length - 4)
    let dx := (x - interp.x.getD i 0) / (interp.x.getD (i + 1) 0 - interp.x.getD i 0)
    let a := coeff_a interp.y i
    some (a.getD 0 0 + a.getD 1 0 * dx + a.getD 2 0 * dx ^ 2 + a.getD 3 0 * dx ^ 3
      + a.getD 4 0 * dx ^ 4 + a.getD 5 0 * dx ^ 5)

/-- `ExtrapolatorConstant::evaluate`: first sample's value below the domain,
last sample's value otherwise. -/
def ExtrapolatorConstant.evaluate (spd : VSPD) (x : ℚ) : ℚ :=
  if x < (spd.samples.headD ⟨0, 0⟩).nm then (spd.samples.headD ⟨0, 0⟩).v
  else (spd.samples.getLastD ⟨0, 0⟩).v

/-! ## VSPD shape transforms (`vspd.rs`) -/

/-- `VSPD::interpolate`: clamp the target shape into `self`'s domain, then
evaluate a Sprague interpolator at every wavelength of the clamped shape. -/
def VSPD.interpolate (spd : VSPD) (shape : SpdShape) : Option VSPD :=
  let interp := InterpolatorSprague.new spd
  let shape2 : SpdShape :=
    { shape with start := max shape.start spd.start, end_ := min shape.end_ spd.stop }
  match shape2.iterList with
  | none => none
  | some nms =>
    (nms.mapM fun nm => (interp.evaluate nm).map fun v => Sample.mk nm v).map
      fun samples => VSPD.mk samples shape2

/-- The first `while` loop of `VSPD::extrapolate`
(`while x < bound { push f x; x += step }`), with fuel.  The fuel supplied by
`extrapolate` is large enough whenever `0 < step` (the only case in which the
source loop terminates). -/
def whileLtPush (step bound : ℚ) (f : ℚ → Sample) : ℕ → ℚ → List Sample
  | 0, _ => []
  | fuel + 1, x => if x < bound then f x :: whileLtPush step bound f fuel (x + step) else []

/-- The second `while` loop of `VSPD::extrapolate`
(`while x ≤ bound { push f x; x += step }`), with fuel. -/
def whileLePush (step bound : ℚ) (f : ℚ → Sample) : ℕ → ℚ → List Sample
  | 0, _ => []
  | fuel + 1, x => if x ≤ bound then f x :: whileLePush step bound f fuel (x + step) else []

/-- Fuel bound for the loops: at least `(bound - x)/step + 2` steps. -/
def loopFuel (step bound x : ℚ) : ℕ :=
  (⌊(bound - x) / step⌋ + 2).toNat

/-- `VSPD::extrapolate`: extend the domain to the union of `self`'s and
`shape`'s ranges, filling with the constant extrapolator; the step is
`self`'s interval unless varying, else `shape`'s, else panic (`none`).  The
recorded shape is `SpdShape::new(shape.start, shape.end, interval)`. -/
def VSPD.extrapolate (spd : VSPD) (shape : SpdShape) : Option VSPD :=
  let start := min spd.start shape.start
  let end_ := max spd.stop shape.end_
  let intervalOpt :=
    match spd.shape.interval with
    | Interval.uniform v => some v
    | Interval.varying =>
      match shape.interval with
      | Interval.uniform v => some v
      | Interval.varying => none
  intervalOpt.map fun interval =>
    let f := fun x => Sample.mk x (ExtrapolatorConstant.evaluate spd x)
    let pre := whileLtPush interval spd.start f (loopFuel interval spd.start start) start
    let suf := whileLePush interval end_ f (loopFuel interval end_ (spd.stop + interval))
      (spd.stop + interval)
    VSPD.mk (pre ++ spd.samples ++ suf) (SpdShape.new shape.start shape.end_ interval)

/-- `VSPD::align` = interpolate then extrapolate to the same shape. -/
def VSPD.align (spd : VSPD) (shape : SpdShape) : Option VSPD :=
  (spd.interpolate shape).bind fun s => s.extrapolate shape

/-- `VSPD::trim`: drop samples outside `[shape.start, shape.end]` without
resampling; the `unwrap` on an empty result (the source panic) is `none`. -/
def VSPD.trim (spd : VSPD) (shape : SpdShape) : Option VSPD :=
  match (spd.samples.dropWhile fun s => decide (s.nm < shape.start)).takeWhile
      (fun s => decide (s.nm ≤ shape.end_)) with
  | [] => none
  | s₀ :: rest =>
    some (VSPD.mk (s₀ :: rest)
      { start := s₀.nm
        end_ := ((s₀ :: rest).getLastD ⟨0, 0⟩).nm
        interval := spd.shape.interval })

/-- The `as usize` cast in `from_values`: Rust float-to-int `as` saturates —
negative values go to 0, values at or above `2^64` to `2^64 - 1`, and the rest
truncate toward zero. -/
def ratAsUsize (q : ℚ) : ℕ :=
  if q < 0 then 0 else if (2 : ℚ) ^ 64 ≤ q then 2 ^ 64 - 1 else ⌊q⌋.toNat

/-- `VSPD::constant(shape, value)`: samples on the shape's iterator grid, all
carrying `value`; the iterator's `unreachable!`/`unwrap` and the
fewer-than-two-samples panic are modelled as `none`, and the given shape is
recorded verbatim. -/
def VSPD.constant (shape : SpdShape) (value : ℚ) : Option VSPD :=
  match shape.iterList with
  | none => none
  | some nms =>
    if (nms.map fun nm => Sample.mk nm value).length < 2 then none
    else some (VSPD.mk (nms.map fun nm => Sample.mk nm value) shape)

/-- `VSPD::from_values(shape, values)`: panics (`none`) on fewer than two
values, a varying interval, or a count mismatch with the shape's grid
(`(end - start) / interval as usize + 1`); the samples zip the shape's
iterator with the values and the given shape is recorded verbatim. -/
def VSPD.from_values (shape : SpdShape) (values : List ℚ) : Option VSPD :=
  if values.length < 2 then none
  else match shape.interval with
    | Interval.varying => none
    | Interval.uniform interval =>
      if ratAsUsize ((shape.end_ - shape.start) / interval) + 1 ≠ values.length then none
      else match shape.iterList with
        | none => none
        | some nms =>
          some (VSPD.mk ((nms.zip values).map fun p => Sample.mk p.1 p.2) shape)

/-! ## XYZ integration engine (`vspd.rs`) -/

/-- `XYZf64` from `xyz.rs` (only the three components are relevant here). -/
structure XYZf64 where
  x : ℚ
  y : ℚ
  z : ℚ
deriving DecidableEq, Repr

/-- The `xyz` constructor from `xyz.rs`. -/
def xyz (x y z : ℚ) : XYZf64 := ⟨x, y, z⟩

/-- Modelled from the spec: the `CMF` type of the missing `cmf` module
"bundl[es] three VSPDs (x̄, ȳ, z̄) over a shared shape"; its `shape()`
accessor returns that shared shape (taken from the x̄ channel) and its
`align` aligns the three channels. -/
structure CMF where
  x_bar : VSPD
  y_bar : VSPD
  z_bar : VSPD
deriving DecidableEq, Repr

/-- Modelled from the spec: `CMF::shape()`, the shared shape of the three
channels. -/
def CMF.shape (cmf : CMF) : SpdShape := cmf.x_bar.shape

/-- Modelled from the spec: `CMF::align`, channel-wise `VSPD::align`. -/
def CMF.align (cmf : CMF) (shape : SpdShape) : Option CMF := do
  let x ← cmf.x_bar.align shape
  let y ← cmf.y_bar.align shape
  let z ← cmf.z_bar.align shape
  pure ⟨x, y, z⟩

/-- `itertools::izip!` over three sequences: zip truncating at the shortest. -/
def zip3 (a b c : List ℚ) : List (ℚ × ℚ × ℚ) := a.zip (b.zip c)

/-- `spd_to_xyz_integration` from `vspd.rs`: align all five curves to
`shape`, take `dw` from the (required-uniform) interval, normalise by
`k = 100 / Σ illuminant·ȳ·dw` and accumulate `k·Σ spd·illuminant·c̄·dw` per
channel, with `dw` inside every summand as in the source. -/
def spd_to_xyz_integration (spd illuminant : VSPD) (cmf : CMF) (shape : SpdShape) :
    Option XYZf64 := do
  let cmf_x ← cmf.x_bar.align shape
  let cmf_y ← cmf.y_bar.align shape
  let cmf_z ← cmf.z_bar.align shape
  let illuminant2 ← illuminant.align shape
  let spd2 ← spd.align shape
  match shape.interval with
  | Interval.varying => none
  | Interval.uniform dw =>
    let k : ℚ :=
      100 / (((illuminant2.values.zip cmf_y.values).map fun p => p.1 * p.2 * dw).sum)
    let x := k * ((zip3 spd2.values illuminant2.values cmf_x.values).map
      fun t => t.1 * t.2.1 * t.2.2 * dw).sum
    let y := k * ((zip3 spd2.values illuminant2.values cmf_y.values).map
      fun t => t.1 * t.2.1 * t.2.2 * dw).sum
    let z := k * ((zip3 spd2.values illuminant2.values cmf_z.values).map
      fun t => t.1 * t.2.1 * t.2.2 * dw).sum
    pure (xyz x y z)

/-- `lagrange_coefficients` from `vspd.rs`: classical Lagrange basis values at
fractional position `r` for `n` points. -/
def lagrange_coefficients (r : ℚ) (n : ℕ) : List ℚ :=
  (List.range n).map fun (j : ℕ) =>
    (List.range n).foldl
      (fun acc (i : ℕ) => if i ≠ j then acc * ((r - (i : ℚ)) / ((j : ℚ) - (i : ℚ))) else acc) 1

/-- `linspace` from `vspd.rs`: `steps` evenly spaced values from `start`. -/
def linspace (start end_ : ℚ) (steps : ℕ) : List ℚ :=
  let delta := (end_ - start) / ((steps : ℚ) - 1)
  (List.range steps).map fun (k : ℕ) => (k : ℚ) * delta + start

/-- `lagrange_coefficients_astm_e2022` from `vspd.rs`. -/
def lagrange_coefficients_astm_e2022 (interval : ℚ) (degree : ℕ) : List (List ℚ) :=
  let num := (ratTrunc interval).toNat - 1
  let d : ℚ := if degree = 4 then 1 else 0
  (linspace (1 / interval) (1 - 1 / interval) num).map fun r =>
    lagrange_coefficients (r + d) degree

/-- `Iterator::step_by(k)`: every `k`-th element starting from the first.
(`step_by(0)` panics in Rust; that case is unreachable here.) -/
def stepBy (l : List ℚ) (k : ℕ) : List ℚ :=
  if k = 0 then []
  else (l.enum.filter fun p => p.1 % k = 0).map (·.2)

/-- `w[i] += c` on an array (in range on every source-reachable path). -/
def updAdd (w : Array ℚ) (i : ℕ) (c : ℚ) : Array ℚ :=
  w.setD i (w.getD i 0 + c)

/-- `tristimulus_weighting_factors_astme2022` from `vspd.rs`: per-interval
weights baking the illuminant and Lagrange quadrature into each CMF channel,
normalised so that the ȳ weights sum to 100.  The source's panics (CMF
interval not uniform-1, illuminant/CMF interval mismatch, varying target
shape) are `none`. -/
def tristimulus_weighting_factors_astme2022 (cmf : CMF) (illuminant : VSPD)
    (shape : SpdShape) : Option (List ℚ × List ℚ × List ℚ) := do
  let cmfInterval ←
    match cmf.shape.interval with
    | Interval.uniform i => some i
    | Interval.varying => none
  if cmfInterval ≠ 1 then none else
  if illuminant.shape.interval ≠ cmf.shape.interval then none else
  let y_x := cmf.x_bar.values
  let y_y := cmf.y_bar.values
  let y_z := cmf.z_bar.values
  let s := illuminant.values
  let interval ←
    match shape.interval with
    | Interval.uniform i => some i
    | Interval.varying => none
  let c_c := lagrange_coefficients_astm_e2022 interval 3
  let c_b := lagrange_coefficients_astm_e2022 interval 4
  let interval_i := (ratTrunc interval).toNat
  let w_x := ((stepBy s interval_i).zip (stepBy y_x interval_i)).map
    (fun p => p.1 * p.2) |>.toArray
  let w_y := ((stepBy s interval_i).zip (stepBy y_y interval_i)).map
    (fun p => p.1 * p.2) |>.toArray
  let w_z := ((stepBy s interval_i).zip (stepBy y_z interval_i)).map
    (fun p => p.1 * p.2) |>.toArray
  let w_c := y_x.length
  let r_c := c_b.length
  let w_lif := w_c - (w_c - 1) % interval_i - 1 - r_c
  let i_c := w_x.size
  let i_cm := i_c - 1
  let cC := fun (j k : ℕ) => (c_c.getD j []).getD k 0
  let cB := fun (j k : ℕ) => (c_b.getD j []).getD k 0
  let sAt := fun (j : ℕ) => s.getD j 0
  let yxAt := fun (j : ℕ) => y_x.getD j 0
  let yyAt := fun (j : ℕ) => y_y.getD j 0
  let yzAt := fun (j : ℕ) => y_z.getD j 0
  -- First interval
  let step1 := fun (w : Array ℚ) (yAt : ℕ → ℚ) =>
    (List.range r_c).foldl
      (fun w j => (List.range 3).foldl
        (fun w k => updAdd w k (cC j k * sAt (j + 1) * yAt (j + 1))) w) w
  let w_x := step1 w_x yxAt
  let w_y := step1 w_y yyAt
  let w_z := step1 w_z yzAt
  -- Last interval (the source iterates k over (i_cm-2..i_cm+1).rev())
  let step2 := fun (w : Array ℚ) (yAt : ℕ → ℚ) =>
    (List.range r_c).foldl
      (fun w j => [i_cm, i_cm - 1, i_cm - 2].foldl
        (fun w k =>
          updAdd w k (cC (r_c - j - 1) (i_cm - k) * sAt (j + w_lif) * yAt (j + w_lif))) w) w
  let w_x := step2 w_x yxAt
  let w_y := step2 w_y yyAt
  let w_z := step2 w_z yzAt
  -- Intermediate intervals
  let step3 := fun (w : Array ℚ) (yAt : ℕ → ℚ) =>
    (List.range (i_c - 3)).foldl
      (fun w j => (List.range r_c).foldl
        (fun w k =>
          let w_i := (r_c + 1) * (j + 1) + 1 + k
          let w := updAdd w (j + 0) (cB k 0 * sAt w_i * yAt w_i)
          let w := updAdd w (j + 1) (cB k 1 * sAt w_i * yAt w_i)
          let w := updAdd w (j + 2) (cB k 2 * sAt w_i * yAt w_i)
          updAdd w (j + 3) (cB k 3 * sAt w_i * yAt w_i)) w) w
  let w_x := step3 w_x yxAt
  let w_y := step3 w_y yyAt
  let w_z := step3 w_z yzAt
  -- Extrapolation of a potentially incomplete last interval
  let step4 := fun (w : Array ℚ) (yAt : ℕ → ℚ) =>
    (List.range' (w_c - (w_c - 1) % interval_i) ((w_c - 1) % interval_i)).foldl
      (fun w j => updAdd w i_cm (sAt j * yAt j)) w
  let w_x := step4 w_x yxAt
  let w_y := step4 w_y yyAt
  let w_z := step4 w_z yzAt
  let k : ℚ := 100 / (w_y.toList.sum)
  pure (w_x.toList.map (· * k), w_y.toList.map (· * k), w_z.toList.map (· * k))

/-- `adjust_tristimulus_weighting_factors_astme308` from `vspd.rs`: fold the
weight mass outside the target shape into the nearest retained boundary
weight, then slice to the retained range. -/
def adjust_tristimulus_weighting_factors_astme308 (w_x w_y w_z : List ℚ)
    (shape_r shape_t : SpdShape) : Option (List ℚ × List ℚ × List ℚ) := do
  let r_interval ←
    match shape_r.interval with
    | Interval.uniform i => some i
    | Interval.varying => none
  let start_index := (ratTrunc ((shape_t.start - shape_r.start) / r_interval)).toNat
  let fold1 := fun (w : Array ℚ) =>
    (List.range start_index).foldl (fun w i => updAdd w start_index (w.getD i 0)) w
  let w_x := fold1 w_x.toArray
  let w_y := fold1 w_y.toArray
  let w_z := fold1 w_z.toArray
  let end_index := (ratTrunc ((shape_r.end_ - shape_t.end_) / r_interval)).toNat
  let n := w_x.size
  let fold2 := fun (w : Array ℚ) =>
    (List.range end_index).foldl
      (fun w i => updAdd w (n - end_index - 1) (w.getD (n - i - 1) 0)) w
  let w_x := fold2 w_x
  let w_y := fold2 w_y
  let w_z := fold2 w_z
  let first := start_index
  let last := n - end_index
  pure ((w_x.toList.take last).drop first, (w_y.toList.take last).drop first,
    (w_z.toList.take last).drop first)

/-- `spd_to_xyz_tristimulus_weighting_factors_astme308` from `vspd.rs`: the
10nm fast path — align the illuminant to the CMF shape if needed, trim the
spd to the CMF boundaries, build and adjust the weighting factors, and take
one weighted dot product per channel. -/
def spd_to_xyz_tristimulus_weighting_factors_astme308 (spd illuminant : VSPD)
    (cmf : CMF) : Option XYZf64 := do
  let interval ←
    match spd.shape.interval with
    | Interval.uniform i => some i
    | Interval.varying => none
  let illuminant2 ←
    if illuminant.shape ≠ cmf.shape then illuminant.align cmf.shape else some illuminant
  let spd2 ← spd.trim cmf.shape
  let w ← tristimulus_weighting_factors_astme2022 cmf illuminant2
    (SpdShape.new cmf.shape.start cmf.shape.end_ interval)
  let start_w := cmf.shape.start
  let end_w := cmf.shape.start + interval * ((w.1.length - 1 : ℕ) : ℚ)
  let w2 ← adjust_tristimulus_weighting_factors_astme308 w.1 w.2.1 w.2.2
    (SpdShape.new start_w end_w interval) spd2.shape
  let x := ((w2.1.zip spd2.values).map fun p => p.1 * p.2).sum
  let y := ((w2.2.1.zip spd2.values).map fun p => p.1 * p.2).sum
  let z := ((w2.2.2.zip spd2.values).map fun p => p.1 * p.2).sum
  pure (xyz x y z)

/-- The dispatch performed by the `match` inside `VSPD::to_xyz`, factored out
as a function so the selected code path is a first-class value; `to_xyz`
below consumes it, so the two together are exactly the source's match. -/
inductive XyzPath where
  | varyingSelf
  | directPath (shape : SpdShape)
  | weightingPath
  | fallbackPath
  | panicPath
deriving DecidableEq, Repr

/-- The interval dispatch of `VSPD::to_xyz`: the source matches on
`interval.to_usize().unwrap()` — `1` integrates at the ASTM E308 shape, `5`
at that shape with a 5nm step, `10` uses the weighting-factor path, anything
else logs and falls back; a failed `to_usize` panics; a varying interval
aligns `self` to its own domain at 1nm first. -/
def toXyzPath (spd : VSPD) : XyzPath :=
  match spd.shape.interval with
  | Interval.varying => XyzPath.varyingSelf
  | Interval.uniform interval =>
    match toUsize interval with
    | none => XyzPath.panicPath
    | some n =>
      if n = 1 then XyzPath.directPath SpdShape.astm_e308
      else if n = 5 then
        XyzPath.directPath { SpdShape.astm_e308 with interval := Interval.uniform 5 }
      else if n = 10 then XyzPath.weightingPath
      else XyzPath.fallbackPath

/-- `VSPD::to_xyz`: align the illuminant and CMF to 360–780nm at 1nm, then
dispatch on `self`'s interval (`toXyzPath`).  The fallback branch's
diagnostic `println!` has no observable effect on the result and is elided. -/
def VSPD.to_xyz (spd illuminant : VSPD) (cmf : CMF) : Option XYZf64 := do
  let illuminant2 ← illuminant.align (SpdShape.new 360 780 1)
  let cmf2 ← cmf.align (SpdShape.new 360 780 1)
  match toXyzPath spd with
  | XyzPath.varyingSelf => do
    let spd2 ← spd.align (SpdShape.new spd.shape.start spd.shape.end_ 1)
    spd_to_xyz_integration spd2 illuminant2 cmf2 spd2.shape
  | XyzPath.directPath shape => spd_to_xyz_integration spd illuminant2 cmf2 shape
  | XyzPath.weightingPath =>
    spd_to_xyz_tristimulus_weighting_factors_astme308 spd illuminant2 cmf2
  | XyzPath.fallbackPath => spd_to_xyz_integration spd illuminant2 cmf2 SpdShape.astm_e308
  | XyzPath.panicPath => none

/-! ## Concrete spectra used by the repository's tests and by the theorems -/

/-- The 20nm test spectrum `380→0.5, 400→0.4, …, 480→0.0` used throughout the
repository's unit tests. -/
def spd380to480 : VSPD :=
  VSPD.new [⟨380, 1/2⟩, ⟨400, 2/5⟩, ⟨420, 3/10⟩, ⟨440, 1/5⟩, ⟨460, 1/10⟩, ⟨480, 0⟩]

/-- A spectrum with a uniform interval of 10.5nm (wavelengths 380, 390.5, 401). -/
def spd105 : VSPD := VSPD.new [⟨380, 1⟩, ⟨781/2, 1⟩, ⟨401, 1⟩]

/-- The 20nm test spectrum shifted to start at 385nm: its domain boundaries do
not lie on the 10nm grid of the shape 320–520 @ 10nm. -/
def spd385 : VSPD :=
  VSPD.new [⟨385, 1/2⟩, ⟨405, 2/5⟩, ⟨425, 3/10⟩, ⟨445, 1/5⟩, ⟨465, 1/10⟩, ⟨485, 0⟩]

/-- The extrapolation of `spd380to480` to 320–520 @ 10nm expected by the
repository's `extrapolate` test: flat 0.5 below 380, flat 0.0 above 480, step
taken from `self` (20nm). -/
def extrap320to520 : VSPD :=
  VSPD.mk
    [⟨320, 1/2⟩, ⟨340, 1/2⟩, ⟨360, 1/2⟩, ⟨380, 1/2⟩, ⟨400, 2/5⟩, ⟨420, 3/10⟩,
     ⟨440, 1/5⟩, ⟨460, 1/10⟩, ⟨480, 0⟩, ⟨500, 0⟩, ⟨520, 0⟩]
    (SpdShape.new 320 520 20)

/-! ## C8 -/

/-- C8: for the VSPD with samples `(380,0.5) … (480,0.0)` at uniform 20nm
spacing, constructing the Sprague interpolator and evaluating it at 390nm
returns exactly `0.45 = 9/20`. -/
theorem sprague_midpoint_390_exact :
    (InterpolatorSprague.new spd380to480).evaluate 390 = some (9 / 20) := by with_unfolding_all decide

/-! ## C4 -/

/-- The uniformity criterion as the spec states it: every consecutive
wavelength delta — including the delta between the last two samples — equals
`d` within the absolute epsilon `1e-11`.  (Second, spec-side definition for
comparison with `calculate_interval`; the ULP clause is irrelevant at the
inputs considered, see `approxEqEps`.) -/
def specAllDeltasUniform (samples : List Sample) (d : ℚ) : Bool :=
  (List.range (samples.length - 1)).all fun i =>
    approxEqEps ((samples.getD (i + 1) ⟨0, 0⟩).nm - (samples.getD i ⟨0, 0⟩).nm) d (1e-11)

/-- C4: the claim's "iff" fails — on samples at wavelengths 380, 381, 480 the
code classifies the interval as `Uniform(1)` although the delta between the
last two samples is 99: the scan `for i in 1..samples.len() - 1` stops one
delta short and never checks the last one. -/
theorem calculate_interval_last_delta_unchecked :
    calculate_interval [⟨380, 0⟩, ⟨381, 0⟩, ⟨480, 0⟩] = Interval.uniform 1 ∧
      specAllDeltasUniform [⟨380, 0⟩, ⟨381, 0⟩, ⟨480, 0⟩] 1 = false := by with_unfolding_all decide

/-! ## C5 -/

/-- C5 (counterexample): `extrapolate` records the *target* shape's
boundaries, not the actual sample boundaries — extrapolating the 380–480
spectrum to the narrower shape 400–440 yields recorded start 400 while the
first sample is still at 380. -/
theorem extrapolate_bounds_cex :
    (spd380to480.extrapolate (SpdShape.new 400 440 10)).map
        (fun e => (e.shape.start, (e.samples.headD ⟨0, 0⟩).nm)) = some (400, 380) ∧
      (400 : ℚ) ≠ 380 := by with_unfolding_all decide

/-- C5 (amended): `VSPD::new` and `trim` compute the recorded shape boundaries
from the samples (first and last sample wavelengths).  The remaining public
operations record a target-derived shape verbatim, independent of where their
samples actually lie: `constant` and `from_values` record the given shape,
`interpolate` records the clamped target shape (`max`/`min` of the two ranges
with the target's interval), and `extrapolate` — hence `align` — records
`SpdShape::new(target.start, target.end, interval)`, with the interval taken
from `self` when uniform (for `align`, from the target, which the
interpolation step has made `self`'s interval). -/
theorem shape_bounds_amended :
    (∀ samples : List Sample,
      (VSPD.new samples).shape.start = (samples.headD ⟨0, 0⟩).nm ∧
        (VSPD.new samples).shape.end_ = (samples.getLastD ⟨0, 0⟩).nm)
    ∧ (∀ (spd : VSPD) (shape : SpdShape) (t : VSPD), spd.trim shape = some t →
        t.shape.start = (t.samples.headD ⟨0, 0⟩).nm ∧
          t.shape.end_ = (t.samples.getLastD ⟨0, 0⟩).nm)
    ∧ (∀ (shape : SpdShape) (value : ℚ) (c : VSPD),
        VSPD.constant shape value = some c → c.shape = shape)
    ∧ (∀ (shape : SpdShape) (values : List ℚ) (f : VSPD),
        VSPD.from_values shape values = some f → f.shape = shape)
    ∧ (∀ (spd : VSPD) (shape : SpdShape) (r : VSPD), spd.interpolate shape = some r →
        r.shape = SpdShape.mk (max shape.start spd.start) (min shape.end_ spd.stop)
          shape.interval)
    ∧ (∀ (spd : VSPD) (shape : SpdShape) (iv : ℚ) (e : VSPD),
        spd.shape.interval = Interval.uniform iv → spd.extrapolate shape = some e →
        e.shape = SpdShape.new shape.start shape.end_ iv)
    ∧ (∀ (spd : VSPD) (shape : SpdShape) (iv : ℚ) (a : VSPD),
        shape.interval = Interval.uniform iv → spd.align shape = some a →
        a.shape = SpdShape.new shape.start shape.end_ iv) := by
  have hinterp : ∀ (spd : VSPD) (shape : SpdShape) (r : VSPD),
      spd.interpolate shape = some r →
      r.shape = SpdShape.mk (max shape.start spd.start) (min shape.end_ spd.stop)
        shape.interval := by
    intro spd shape r h
    simp only [VSPD.interpolate] at h
    split at h
    · exact absurd h (by simp)
    · obtain ⟨a, _, ha⟩ := Option.map_eq_some'.mp h
      rw [← ha]
  have hextrap : ∀ (spd : VSPD) (shape : SpdShape) (iv : ℚ) (e : VSPD),
      spd.shape.interval = Interval.uniform iv → spd.extrapolate shape = some e →
      e.shape = SpdShape.new shape.start shape.end_ iv := by
    intro spd shape iv e hiv he
    unfold VSPD.extrapolate at he
    rw [hiv] at he
    cases he
    rfl
  refine ⟨fun samples => ⟨rfl, rfl⟩, ?_, ?_, ?_, hinterp, hextrap, ?_⟩
  · intro spd shape t h
    unfold VSPD.trim at h
    split at h
    · exact absurd h (by simp)
    · cases h
      exact ⟨rfl, rfl⟩
  · intro shape value c h
    unfold VSPD.constant at h
    split at h
    · exact absurd h (by simp)
    · split at h
      · exact absurd h (by simp)
      · cases h
        rfl
  · intro shape values f h
    unfold VSPD.from_values at h
    split at h
    · exact absurd h (by simp)
    · split at h
      · exact absurd h (by simp)
      · split at h
        · exact absurd h (by simp)
        · split at h
          · exact absurd h (by simp)
          · cases h
            rfl
  · intro spd shape iv a hs ha
    unfold VSPD.align at ha
    obtain ⟨A, hA, hAe⟩ := Option.bind_eq_some.mp ha
    exact hextrap A shape iv a (by rw [hinterp spd shape A hA]; exact hs) hAe

/-- The result of `VSPD::constant` on the off-grid shape 0–5 @ 2. -/
def constant052 : VSPD :=
  VSPD.mk [⟨0, 1⟩, ⟨2, 1⟩, ⟨4, 1⟩] (SpdShape.new 0 5 2)

/-- The result of `VSPD::from_values` on the off-grid shape 0–5 @ 2 with
values 1, 2, 3. -/
def fromValues052 : VSPD :=
  VSPD.mk [⟨0, 1⟩, ⟨2, 2⟩, ⟨4, 3⟩] (SpdShape.new 0 5 2)

/-- The 380–480 @ 20nm spectrum interpolated (equally, aligned) to the
off-grid shape 380–475 @ 20: the samples stop at 460 while the recorded end
is 475. -/
def interp380to475 : VSPD :=
  VSPD.mk [⟨380, 1/2⟩, ⟨400, 2/5⟩, ⟨420, 3/10⟩, ⟨440, 1/5⟩, ⟨460, 1/10⟩]
    (SpdShape.new 380 475 20)

/-- C5 (witness): `shape_bounds_amended` at concrete inputs.  `new` and `trim`
record the sample boundaries; `constant` and `from_values` on the off-grid
shape 0–5 @ 2 record end 5 while their last sample is at 4; `interpolate`
(and `align`) of the 380–480 spectrum to 380–475 @ 20 records end 475 with
last sample 460; `extrapolate` to 320–520 records the target bounds (the flat
fill here does reach them), but to 320–530 it records end 530 with last
sample 520 — the samples need not span the union of the two ranges. -/
theorem shape_bounds_amended_witness :
    ((VSPD.new [⟨380, (1 : ℚ)⟩, ⟨400, 2⟩]).shape.start = 380 ∧
      (VSPD.new [⟨380, (1 : ℚ)⟩, ⟨400, 2⟩]).shape.end_ = 400)
    ∧ (spd380to480.trim (SpdShape.new 400 440 10) = some
        (VSPD.mk [⟨400, 2/5⟩, ⟨420, 3/10⟩, ⟨440, 1/5⟩] (SpdShape.new 400 440 20)) ∧
      (VSPD.mk [⟨400, (2 : ℚ)/5⟩, ⟨420, 3/10⟩, ⟨440, 1/5⟩]
          (SpdShape.new 400 440 20)).shape.start = 400)
    ∧ (VSPD.constant (SpdShape.new 0 5 2) 1 = some constant052 ∧
        constant052.shape = SpdShape.new 0 5 2 ∧
        (constant052.samples.getLastD ⟨0, 0⟩).nm = 4 ∧ (5 : ℚ) ≠ 4)
    ∧ (VSPD.from_values (SpdShape.new 0 5 2) [1, 2, 3] = some fromValues052 ∧
        fromValues052.shape = SpdShape.new 0 5 2 ∧
        (fromValues052.samples.getLastD ⟨0, 0⟩).nm = 4)
    ∧ (spd380to480.interpolate (SpdShape.new 380 475 20) = some interp380to475 ∧
        interp380to475.shape = SpdShape.mk (max (380 : ℚ) 380) (min (475 : ℚ) 480)
          (Interval.uniform 20) ∧
        (interp380to475.samples.getLastD ⟨0, 0⟩).nm = 460 ∧ (475 : ℚ) ≠ 460)
    ∧ (spd380to480.shape.interval = Interval.uniform 20 ∧
        spd380to480.extrapolate (SpdShape.new 320 520 10) = some extrap320to520 ∧
        extrap320to520.shape = SpdShape.new 320 520 20)
    ∧ ((spd380to480.extrapolate (SpdShape.new 320 530 10)).map
        (fun e => (e.shape.end_, (e.samples.getLastD ⟨0, 0⟩).nm)) = some (530, 520) ∧
        (530 : ℚ) ≠ 520)
    ∧ (spd380to480.align (SpdShape.new 380 475 20) = some interp380to475 ∧
        interp380to475.shape = SpdShape.new 380 475 20) := by
  have h := shape_bounds_amended
  refine ⟨⟨?_, ?_⟩, ⟨by with_unfolding_all decide, ?_⟩,
    ⟨by with_unfolding_all decide, ?_, by with_unfolding_all decide,
      by with_unfolding_all decide⟩,
    ⟨by with_unfolding_all decide, ?_, by with_unfolding_all decide⟩,
    ⟨by with_unfolding_all decide, ?_, by with_unfolding_all decide,
      by with_unfolding_all decide⟩,
    ⟨by with_unfolding_all decide, by with_unfolding_all decide, ?_⟩,
    ⟨by with_unfolding_all decide, by with_unfolding_all decide⟩,
    by with_unfolding_all decide, ?_⟩
  · exact ((h.1 [⟨380, (1 : ℚ)⟩, ⟨400, 2⟩]).1).trans (by with_unfolding_all decide)
  · exact ((h.1 [⟨380, (1 : ℚ)⟩, ⟨400, 2⟩]).2).trans (by with_unfolding_all decide)
  · exact ((h.2.1 spd380to480 (SpdShape.new 400 440 10) _
      (by with_unfolding_all decide)).1).trans (by with_unfolding_all decide)
  · exact h.2.2.1 (SpdShape.new 0 5 2) 1 constant052 (by with_unfolding_all decide)
  · exact h.2.2.2.1 (SpdShape.new 0 5 2) [1, 2, 3] fromValues052
      (by with_unfolding_all decide)
  · exact h.2.2.2.2.1 spd380to480 (SpdShape.new 380 475 20) interp380to475
      (by with_unfolding_all decide)
  · exact h.2.2.2.2.2.1 spd380to480 (SpdShape.new 320 520 10) 20 extrap320to520
      (by with_unfolding_all decide) (by with_unfolding_all decide)
  · exact h.2.2.2.2.2.2 spd380to480 (SpdShape.new 380 475 20) 20 interp380to475
      (by with_unfolding_all decide) (by with_unfolding_all decide)

/-! ## C3 -/

/-- C3 (counterexample): an interval of exactly 10.5nm reaches the
weighting-factor path — the dispatch truncates the interval with
`to_usize`, so `10.5` is matched as `10`; the claim's "no interval value
other than exactly 10nm reaches the weighting-factor path" is false. -/
theorem to_xyz_dispatch_cex :
    spd105.shape.interval = Interval.uniform (21 / 2) ∧ (21 / 2 : ℚ) ≠ 10 ∧
      toXyzPath spd105 = XyzPath.weightingPath := by with_unfolding_all decide

/-- `toUsize` on a nonnegative rational below `2^64` is the floor. -/
theorem toUsize_of_nonneg (q : ℚ) (h0 : 0 ≤ q) (h1 : q < 2 ^ 64) :
    toUsize q = some ⌊q⌋.toNat := by
  unfold toUsize ratTrunc
  rw [if_pos ⟨by linarith, h1⟩, if_neg (not_lt.mpr h0)]

/-- A spectrum whose derived interval is `Varying` (deltas 2, 1, 1; the scan
sees the mismatch at the second delta). -/
def spdVary : VSPD := VSPD.new [⟨0, 0⟩, ⟨2, 0⟩, ⟨3, 0⟩, ⟨4, 0⟩]

/-- A two-sample unit spectrum used as a stand-in illuminant / CMF channel. -/
def illumW : VSPD := VSPD.new [⟨0, 1⟩, ⟨1, 1⟩]

/-- A stand-in CMF built from `illumW`. -/
def cmfW : CMF := CMF.mk illumW illumW illumW

/-- C3 (amended): `to_xyz` dispatches on the *integer truncation* of the
uniform interval, not on its exact value: a `Varying` interval aligns `self`
to its own domain at 1nm and integrates; a uniform interval `q` (nonnegative,
within the usize range) takes the 1nm direct path whenever `1 ≤ q < 2`, the
5nm direct path whenever `5 ≤ q < 6`, the ASTM E308 weighting-factor path
whenever `10 ≤ q < 11`, and otherwise falls back to direct integration at the
ASTM E308 1nm shape. -/
theorem to_xyz_dispatch_truncated :
    (∀ (spd illuminant : VSPD) (cmf : CMF), spd.shape.interval = Interval.varying →
      spd.to_xyz illuminant cmf = (do
        let i2 ← illuminant.align (SpdShape.new 360 780 1)
        let c2 ← cmf.align (SpdShape.new 360 780 1)
        let spd2 ← spd.align (SpdShape.new spd.shape.start spd.shape.end_ 1)
        spd_to_xyz_integration spd2 i2 c2 spd2.shape))
    ∧ ∀ (spd illuminant : VSPD) (cmf : CMF) (q : ℚ),
        spd.shape.interval = Interval.uniform q → 0 ≤ q → q < 2 ^ 64 →
        (1 ≤ q ∧ q < 2 → spd.to_xyz illuminant cmf = (do
          let i2 ← illuminant.align (SpdShape.new 360 780 1)
          let c2 ← cmf.align (SpdShape.new 360 780 1)
          spd_to_xyz_integration spd i2 c2 SpdShape.astm_e308))
        ∧ (5 ≤ q ∧ q < 6 → spd.to_xyz illuminant cmf = (do
          let i2 ← illuminant.align (SpdShape.new 360 780 1)
          let c2 ← cmf.align (SpdShape.new 360 780 1)
          spd_to_xyz_integration spd i2 c2
            { SpdShape.astm_e308 with interval := Interval.uniform 5 }))
        ∧ (10 ≤ q ∧ q < 11 → spd.to_xyz illuminant cmf = (do
          let i2 ← illuminant.align (SpdShape.new 360 780 1)
          let c2 ← cmf.align (SpdShape.new 360 780 1)
          spd_to_xyz_tristimulus_weighting_factors_astme308 spd i2 c2))
        ∧ ((q < 1 ∨ (2 ≤ q ∧ q < 5) ∨ (6 ≤ q ∧ q < 10) ∨ 11 ≤ q) →
          spd.to_xyz illuminant cmf = (do
          let i2 ← illuminant.align (SpdShape.new 360 780 1)
          let c2 ← cmf.align (SpdShape.new 360 780 1)
          spd_to_xyz_integration spd i2 c2 SpdShape.astm_e308)) := by
  constructor
  · intro spd illuminant cmf h
    have hp : toXyzPath spd = XyzPath.varyingSelf := by
      simp [toXyzPath, h]
    unfold VSPD.to_xyz
    rw [hp]
  · intro spd illuminant cmf q hint h0 h64
    refine ⟨?_, ?_, ?_, ?_⟩
    · rintro ⟨ha, hb⟩
      have hfl : ⌊q⌋ = 1 := Int.floor_eq_iff.mpr ⟨by exact_mod_cast ha, by push_cast; linarith⟩
      have hp : toXyzPath spd = XyzPath.directPath SpdShape.astm_e308 := by
        simp [toXyzPath, hint, toUsize_of_nonneg q h0 h64, hfl]
      unfold VSPD.to_xyz
      rw [hp]
    · rintro ⟨ha, hb⟩
      have hfl : ⌊q⌋ = 5 := Int.floor_eq_iff.mpr ⟨by exact_mod_cast ha, by push_cast; linarith⟩
      have hp : toXyzPath spd =
          XyzPath.directPath { SpdShape.astm_e308 with interval := Interval.uniform 5 } := by
        simp [toXyzPath, hint, toUsize_of_nonneg q h0 h64, hfl]
      unfold VSPD.to_xyz
      rw [hp]
    · rintro ⟨ha, hb⟩
      have hfl : ⌊q⌋ = 10 := Int.floor_eq_iff.mpr ⟨by exact_mod_cast ha, by push_cast; linarith⟩
      have hp : toXyzPath spd = XyzPath.weightingPath := by
        simp [toXyzPath, hint, toUsize_of_nonneg q h0 h64, hfl]
      unfold VSPD.to_xyz
      rw [hp]
    · intro hcase
      have hflo : 0 ≤ ⌊q⌋ := Int.floor_nonneg.mpr h0
      have hne : ⌊q⌋.toNat ≠ 1 ∧ ⌊q⌋.toNat ≠ 5 ∧ ⌊q⌋.toNat ≠ 10 := by
        rcases hcase with h | ⟨ha, hb⟩ | ⟨ha, hb⟩ | h
        · have : ⌊q⌋ < 1 := Int.floor_lt.mpr (by push_cast; linarith)
          omega
        · have h2 : (2 : ℤ) ≤ ⌊q⌋ := Int.le_floor.mpr (by exact_mod_cast ha)
          have h5 : ⌊q⌋ < 5 := Int.floor_lt.mpr (by push_cast; linarith)
          omega
        · have h6 : (6 : ℤ) ≤ ⌊q⌋ := Int.le_floor.mpr (by exact_mod_cast ha)
          have h10 : ⌊q⌋ < 10 := Int.floor_lt.mpr (by push_cast; linarith)
          omega
        · have h11 : (11 : ℤ) ≤ ⌊q⌋ := Int.le_floor.mpr (by exact_mod_cast h)
          omega
      have hp : toXyzPath spd = XyzPath.fallbackPath := by
        simp [toXyzPath, hint, toUsize_of_nonneg q h0 h64, hne.1, hne.2.1, hne.2.2]
      unfold VSPD.to_xyz
      rw [hp]

/-- C3 (witness): the amended dispatch theorem applied to a varying-interval
spectrum and to the 10.5nm spectrum (which hits the weighting-factor path). -/
theorem to_xyz_dispatch_truncated_witness :
    spdVary.shape.interval = Interval.varying
    ∧ spdVary.to_xyz illumW cmfW = (do
        let i2 ← illumW.align (SpdShape.new 360 780 1)
        let c2 ← cmfW.align (SpdShape.new 360 780 1)
        let spd2 ← spdVary.align (SpdShape.new spdVary.shape.start spdVary.shape.end_ 1)
        spd_to_xyz_integration spd2 i2 c2 spd2.shape)
    ∧ spd105.shape.interval = Interval.uniform (21 / 2)
    ∧ (10 ≤ (21 / 2 : ℚ) ∧ (21 / 2 : ℚ) < 11)
    ∧ spd105.to_xyz illumW cmfW = (do
        let i2 ← illumW.align (SpdShape.new 360 780 1)
        let c2 ← cmfW.align (SpdShape.new 360 780 1)
        spd_to_xyz_tristimulus_weighting_factors_astme308 spd105 i2 c2) := by
  have h := to_xyz_dispatch_truncated
  refine ⟨by with_unfolding_all decide, ?_, by with_unfolding_all decide, by norm_num, ?_⟩
  · exact h.1 spdVary illumW cmfW (by with_unfolding_all decide)
  · exact (h.2 spd105 illumW cmfW (21 / 2) (by with_unfolding_all decide) (by norm_num)
      (by norm_num)).2.2.1 ⟨by norm_num, by norm_num⟩


/-! ## List helpers shared by the trim / extrapolate theorems -/

/-- The head of `dropWhile p` does not satisfy `p`. -/
theorem head_dropWhile_false {α : Type} (p : α → Bool) :
    ∀ (l : List α) (a : α) (t : List α), l.dropWhile p = a :: t → p a = false := by
  intro l
  induction l with
  | nil => intro a t h; simp [List.dropWhile] at h
  | cons x xs ih =>
    intro a t h
    rw [List.dropWhile_cons] at h
    by_cases hx : p x = true
    · rw [if_pos hx] at h; exact ih a t h
    · rw [if_neg hx] at h
      cases h
      simpa using hx

/-- An element not satisfying `p` survives `dropWhile p`. -/
theorem mem_dropWhile_of_false {α : Type} (p : α → Bool) :
    ∀ (l : List α) (s : α), s ∈ l → p s = false → s ∈ l.dropWhile p := by
  intro l
  induction l with
  | nil => intro s h; simp at h
  | cons x xs ih =>
    intro s hmem hps
    rw [List.dropWhile_cons]
    by_cases hx : p x = true
    · rw [if_pos hx]
      rcases List.mem_cons.mp hmem with h | h
      · subst h; rw [hps] at hx; cases hx
      · exact ih s h hps
    · rw [if_neg hx]
      exact hmem

/-- In a list sorted by wavelength, the head has the smallest wavelength. -/
theorem pairwise_head_le (l : List Sample)
    (hs : l.Pairwise fun a b => a.nm ≤ b.nm) :
    ∀ s ∈ l, (l.headD ⟨0, 0⟩).nm ≤ s.nm := by
  cases l with
  | nil => intro s h; simp at h
  | cons x t =>
    intro s hmem
    rcases List.mem_cons.mp hmem with h1 | h1
    · subst h1; exact le_refl _
    · exact (List.pairwise_cons.mp hs).1 s h1

/-- `getLastD` of a nonempty list ignores the default. -/
theorem getLastD_default_irrelevant {α : Type} :
    ∀ (xs : List α) (x : α) (d1 d2 : α),
      (x :: xs).getLastD d1 = (x :: xs).getLastD d2 := by
  intro xs
  induction xs with
  | nil => intro x d1 d2; rfl
  | cons y ys ih =>
    intro x d1 d2
    simp only [List.getLastD_cons]

/-- `getLastD` of a nonempty list is a member. -/
theorem getLastD_mem {α : Type} :
    ∀ (xs : List α) (x : α) (d : α), (x :: xs).getLastD d ∈ x :: xs := by
  intro xs
  induction xs with
  | nil => intro x d; rw [List.getLastD_cons]; exact List.mem_singleton.mpr rfl
  | cons y ys ih =>
    intro x d
    rw [List.getLastD_cons]
    exact List.mem_cons_of_mem x (ih y x)

/-- In a list sorted by wavelength, the last element has the largest
wavelength. -/
theorem pairwise_le_last (l : List Sample)
    (hs : l.Pairwise fun a b => a.nm ≤ b.nm) :
    ∀ s ∈ l, s.nm ≤ (l.getLastD ⟨0, 0⟩).nm := by
  induction l with
  | nil => intro s h; simp at h
  | cons x xs ih =>
    intro s hmem
    cases xs with
    | nil =>
      have hsx : s = x := by simpa using hmem
      subst hsx
      rw [List.getLastD_cons]
      exact le_refl _
    | cons y ys =>
      have hpair := List.pairwise_cons.mp hs
      have hlast : (x :: y :: ys).getLastD (⟨0, 0⟩ : Sample) =
          (y :: ys).getLastD ⟨0, 0⟩ := by
        rw [List.getLastD_cons]
        exact getLastD_default_irrelevant ys y x ⟨0, 0⟩
      rcases List.mem_cons.mp hmem with h1 | h1
      · subst h1
        rw [hlast]
        exact hpair.1 _ (getLastD_mem ys y ⟨0, 0⟩)
      · rw [hlast]
        exact ih hpair.2 s h1

/-! ## C9 -/

/-- The retained window of `trim`: with sorted samples, every retained sample
lies in `[a, b]`. -/
theorem trim_core_range (l : List Sample) (a b : ℚ)
    (hsorted : l.Pairwise fun s t => s.nm ≤ t.nm) :
    ∀ s ∈ (l.dropWhile fun s => decide (s.nm < a)).takeWhile
        (fun s => decide (s.nm ≤ b)), a ≤ s.nm ∧ s.nm ≤ b := by
  intro s hsR
  have hle : s.nm ≤ b := by simpa using List.mem_takeWhile_imp hsR
  refine ⟨?_, hle⟩
  have hsD : s ∈ l.dropWhile fun s => decide (s.nm < a) :=
    (List.takeWhile_sublist _).mem hsR
  have hDpair : (l.dropWhile fun s => decide (s.nm < a)).Pairwise
      fun s t => s.nm ≤ t.nm :=
    List.Pairwise.sublist (List.dropWhile_sublist _) hsorted
  cases hDcase : l.dropWhile fun s => decide (s.nm < a) with
  | nil => rw [hDcase] at hsD; simp at hsD
  | cons c t =>
    have hc : (fun s : Sample => decide (s.nm < a)) c = false :=
      head_dropWhile_false _ l c t hDcase
    have hc' : a ≤ c.nm := by simpa using hc
    rw [hDcase] at hsD
    rw [hDcase] at hDpair
    rcases List.mem_cons.mp hsD with h1 | h1
    · subst h1; exact hc'
    · have := (List.pairwise_cons.mp hDpair).1 s h1
      linarith

/-- With sorted samples, the retained window of `trim` is empty exactly when
no sample lies in `[a, b]`. -/
theorem trim_core_empty (l : List Sample) (a b : ℚ)
    (hsorted : l.Pairwise fun s t => s.nm ≤ t.nm) :
    ((l.dropWhile fun s => decide (s.nm < a)).takeWhile
        (fun s => decide (s.nm ≤ b)) = [])
      ↔ ∀ s ∈ l, ¬(a ≤ s.nm ∧ s.nm ≤ b) := by
  constructor
  · intro hRnil s hmem hin
    have hps : (fun s : Sample => decide (s.nm < a)) s = false := by
      simp only [decide_eq_false_iff_not, not_lt]
      exact hin.1
    have hsD : s ∈ l.dropWhile fun s => decide (s.nm < a) :=
      mem_dropWhile_of_false _ l s hmem hps
    have hDpair : (l.dropWhile fun s => decide (s.nm < a)).Pairwise
        fun s t => s.nm ≤ t.nm :=
      List.Pairwise.sublist (List.dropWhile_sublist _) hsorted
    cases hDcase : l.dropWhile fun s => decide (s.nm < a) with
    | nil => rw [hDcase] at hsD; simp at hsD
    | cons c t =>
      rw [hDcase] at hsD hDpair hRnil
      have hqc : (fun s : Sample => decide (s.nm ≤ b)) c = true := by
        have hca : c.nm ≤ s.nm := by
          rcases List.mem_cons.mp hsD with h1 | h1
          · subst h1; exact le_refl _
          · exact (List.pairwise_cons.mp hDpair).1 s h1
        simp only [decide_eq_true_eq]
        linarith [hin.2]
      rw [List.takeWhile_cons, if_pos hqc] at hRnil
      cases hRnil
  · intro hnone
    cases hRcase : (l.dropWhile fun s => decide (s.nm < a)).takeWhile
        (fun s => decide (s.nm ≤ b)) with
    | nil => rfl
    | cons c t =>
      have hcR : c ∈ (l.dropWhile fun s => decide (s.nm < a)).takeWhile
          (fun s => decide (s.nm ≤ b)) := by
        rw [hRcase]; exact List.mem_cons_self c t
      have hin := trim_core_range l a b hsorted c hcR
      have hcl : c ∈ l :=
        List.Sublist.mem (List.Sublist.mem hcR (List.takeWhile_sublist _))
          (List.dropWhile_sublist _)
      exact absurd hin (hnone c hcl)

/-- C9: with sorted samples, `trim` fails exactly when no sample lies inside
`[shape.start, shape.end]`; when it succeeds every retained sample lies in
that range; and trimming the 20nm test spectrum to `[400, 440]` yields
exactly the samples at 400, 420 and 440. -/
theorem trim_range_characterisation :
    (∀ (spd : VSPD) (shape : SpdShape),
      spd.samples.Pairwise (fun s t => s.nm ≤ t.nm) →
      ((spd.trim shape = none ↔
        ∀ s ∈ spd.samples, ¬(shape.start ≤ s.nm ∧ s.nm ≤ shape.end_))
      ∧ ∀ t, spd.trim shape = some t →
          ∀ s ∈ t.samples, shape.start ≤ s.nm ∧ s.nm ≤ shape.end_))
    ∧ spd380to480.trim (SpdShape.new 400 440 10) =
        some (VSPD.mk [⟨400, 2/5⟩, ⟨420, 3/10⟩, ⟨440, 1/5⟩] (SpdShape.new 400 440 20)) := by
  constructor
  · intro spd shape hsorted
    constructor
    · unfold VSPD.trim
      split
      case _ heq =>
        exact ⟨fun _ => (trim_core_empty spd.samples shape.start shape.end_ hsorted).mp heq,
          fun _ => rfl⟩
      case _ s₀ rest heq =>
        constructor
        · intro hcontra; cases hcontra
        · intro hnone
          have : s₀ :: rest = [] := heq ▸
            (trim_core_empty spd.samples shape.start shape.end_ hsorted).mpr hnone
          cases this
    · intro t ht
      unfold VSPD.trim at ht
      split at ht
      case _ heq => cases ht
      case _ s₀ rest heq =>
        cases ht
        intro s hs
        exact trim_core_range spd.samples shape.start shape.end_ hsorted s (heq ▸ hs)
  · with_unfolding_all decide

/-- C9 (witness): the characterisation applied to the 20nm test spectrum —
trimming to the sample-free window 600–700 fails, and the 400 sample of the
trimmed result lies inside the requested 400–440 range. -/
theorem trim_range_characterisation_witness :
    spd380to480.samples.Pairwise (fun s t => s.nm ≤ t.nm)
    ∧ spd380to480.trim (SpdShape.new 600 700 10) = none
    ∧ ((Sample.mk 400 (2/5)) ∈
        (VSPD.mk [⟨400, 2/5⟩, ⟨420, 3/10⟩, ⟨440, 1/5⟩] (SpdShape.new 400 440 20)).samples →
      (SpdShape.new 400 440 10).start ≤ (Sample.mk 400 (2/5)).nm) := by
  have h := trim_range_characterisation
  have hsorted : spd380to480.samples.Pairwise (fun s t => s.nm ≤ t.nm) := by
    with_unfolding_all decide
  refine ⟨hsorted, ?_, ?_⟩
  · exact ((h.1 spd380to480 (SpdShape.new 600 700 10) hsorted).1).mpr
      (by with_unfolding_all decide)
  · intro hmem
    exact ((h.1 spd380to480 (SpdShape.new 400 440 10) hsorted).2 _ h.2 _ hmem).1

/-! ## C6 -/

/-- Elements pushed by the prefix loop of `extrapolate` all satisfy the loop
guard `x < bound`. -/
theorem mem_whileLtPush (step bound : ℚ) (f : ℚ → Sample) :
    ∀ (fuel : ℕ) (x0 : ℚ), ∀ s ∈ whileLtPush step bound f fuel x0,
      ∃ x, s = f x ∧ x < bound := by
  intro fuel
  induction fuel with
  | zero => intro x0 s hs; simp [whileLtPush] at hs
  | succ n ih =>
    intro x0 s hs
    by_cases hx : x0 < bound
    · simp only [whileLtPush] at hs
      rw [if_pos hx] at hs
      rcases List.mem_cons.mp hs with h1 | h1
      · exact ⟨x0, h1, hx⟩
      · exact ih (x0 + step) s h1
    · simp only [whileLtPush] at hs
      rw [if_neg hx] at hs
      simp at hs

/-- Elements pushed by the suffix loop of `extrapolate` all satisfy the loop
guard `x ≤ bound` and lie at or beyond the starting point. -/
theorem mem_whileLePush (step bound : ℚ) (f : ℚ → Sample) (hstep : 0 ≤ step) :
    ∀ (fuel : ℕ) (x0 : ℚ), ∀ s ∈ whileLePush step bound f fuel x0,
      ∃ x, s = f x ∧ x ≤ bound ∧ x0 ≤ x := by
  intro fuel
  induction fuel with
  | zero => intro x0 s hs; simp [whileLePush] at hs
  | succ n ih =>
    intro x0 s hs
    by_cases hx : x0 ≤ bound
    · simp only [whileLePush] at hs
      rw [if_pos hx] at hs
      rcases List.mem_cons.mp hs with h1 | h1
      · exact ⟨x0, h1, hx, le_refl _⟩
      · obtain ⟨x, hfx, hxb, hxge⟩ := ih (x0 + step) s h1
        exact ⟨x, hfx, hxb, by linarith⟩
    · simp only [whileLePush] at hs
      rw [if_neg hx] at hs
      simp at hs

/-- `headD` of a nonempty list is a member. -/
theorem headD_mem {α : Type} (l : List α) (d : α) (h : l ≠ []) : l.headD d ∈ l := by
  cases l with
  | nil => exact absurd rfl h
  | cons x xs => exact List.mem_cons_self x xs

/-- C6: every sample of an `extrapolate` result lying below the original
start carries exactly the first original sample's value, and every sample
above the original end exactly the last one's (flat extrapolation); in
particular the 380–480 test spectrum extrapolated to 320–520 @ 10nm is
constant 0.5 below 380 and constant 0.0 above 480. -/
theorem extrapolate_flat_fill :
    (∀ (spd : VSPD) (shape : SpdShape) (iv : ℚ) (e : VSPD),
      (spd.shape.interval = Interval.uniform iv ∨
        (spd.shape.interval = Interval.varying ∧ shape.interval = Interval.uniform iv)) →
      0 < iv →
      spd.samples.Pairwise (fun s t => s.nm ≤ t.nm) →
      spd.shape.start = (spd.samples.headD ⟨0, 0⟩).nm →
      spd.shape.end_ = (spd.samples.getLastD ⟨0, 0⟩).nm →
      spd.samples ≠ [] →
      spd.extrapolate shape = some e →
      ∀ s ∈ e.samples,
        (s.nm < spd.shape.start → s.v = (spd.samples.headD ⟨0, 0⟩).v) ∧
        (spd.shape.end_ < s.nm → s.v = (spd.samples.getLastD ⟨0, 0⟩).v))
    ∧ spd380to480.extrapolate (SpdShape.new 320 520 10) = some extrap320to520 := by
  constructor
  · intro spd shape iv e hiv hpos hsorted hstart hend hne he
    have hhead_le_last : (spd.samples.headD ⟨0, 0⟩).nm ≤ (spd.samples.getLastD ⟨0, 0⟩).nm :=
      pairwise_le_last spd.samples hsorted _ (headD_mem spd.samples ⟨0, 0⟩ hne)
    have hsamp : e.samples =
        whileLtPush iv spd.start (fun x => Sample.mk x (ExtrapolatorConstant.evaluate spd x))
          (loopFuel iv spd.start (min spd.start shape.start)) (min spd.start shape.start)
        ++ spd.samples ++
        whileLePush iv (max spd.stop shape.end_)
          (fun x => Sample.mk x (ExtrapolatorConstant.evaluate spd x))
          (loopFuel iv (max spd.stop shape.end_) (spd.stop + iv)) (spd.stop + iv) := by
      rcases hiv with h1 | ⟨h1, h2⟩
      · simp only [VSPD.extrapolate, h1, Option.map_some', Option.some.injEq] at he
        rw [← he]
      · simp only [VSPD.extrapolate, h1, h2, Option.map_some', Option.some.injEq] at he
        rw [← he]
    intro s hs
    rw [hsamp] at hs
    rcases List.mem_append.mp hs with hs' | hsuf
    · rcases List.mem_append.mp hs' with hpre | hmid
      · obtain ⟨x, hfx, hxlt⟩ := mem_whileLtPush _ _ _ _ _ s hpre
        subst hfx
        have hxlt' : x < spd.shape.start := hxlt
        constructor
        · intro _
          show ExtrapolatorConstant.evaluate spd x = _
          unfold ExtrapolatorConstant.evaluate
          rw [if_pos (hstart ▸ hxlt')]
        · intro hcon
          exfalso
          have : (Sample.mk x (ExtrapolatorConstant.evaluate spd x)).nm = x := rfl
          rw [this] at hcon
          rw [hstart, hend] at *
          linarith
      · constructor
        · intro hlt
          exfalso
          have := pairwise_head_le spd.samples hsorted s hmid
          rw [hstart] at hlt
          linarith
        · intro hgt
          exfalso
          have := pairwise_le_last spd.samples hsorted s hmid
          rw [hend] at hgt
          linarith
    · obtain ⟨x, hfx, hxle, hxge⟩ := mem_whileLePush _ _ _ (le_of_lt hpos) _ _ s hsuf
      subst hfx
      have hxge' : spd.shape.end_ + iv ≤ x := hxge
      constructor
      · intro hlt
        exfalso
        have hnm : (Sample.mk x (ExtrapolatorConstant.evaluate spd x)).nm = x := rfl
        rw [hnm] at hlt
        rw [hstart] at hlt
        linarith
      · intro _
        show ExtrapolatorConstant.evaluate spd x = _
        unfold ExtrapolatorConstant.evaluate
        rw [if_neg]
        rw [not_lt]
        have : (spd.samples.headD ⟨0, 0⟩).nm ≤ spd.shape.end_ := hend ▸ hhead_le_last
        linarith
  · with_unfolding_all decide

/-- C6 (witness): the flat-fill theorem applied to the 380–480 test spectrum
extrapolated to 320–520 @ 10nm, at its sample (500, 0). -/
theorem extrapolate_flat_fill_witness :
    spd380to480.shape.interval = Interval.uniform 20
    ∧ (0 : ℚ) < 20
    ∧ spd380to480.samples.Pairwise (fun s t => s.nm ≤ t.nm)
    ∧ spd380to480.extrapolate (SpdShape.new 320 520 10) = some extrap320to520
    ∧ Sample.mk 500 0 ∈ extrap320to520.samples
    ∧ (spd380to480.shape.end_ < (Sample.mk 500 0).nm →
        (Sample.mk 500 0).v = (spd380to480.samples.getLastD ⟨0, 0⟩).v) := by
  have h := extrapolate_flat_fill
  refine ⟨by with_unfolding_all decide, by norm_num, by with_unfolding_all decide,
    h.2, by with_unfolding_all decide, ?_⟩
  exact (h.1 spd380to480 (SpdShape.new 320 520 10) 20 extrap320to520
    (Or.inl (by with_unfolding_all decide)) (by norm_num)
    (by with_unfolding_all decide) (by with_unfolding_all decide)
    (by with_unfolding_all decide) (by with_unfolding_all decide)
    h.2 (Sample.mk 500 0) (by with_unfolding_all decide)).2


/-! ## C2 -/

/-- The zipped product sum of the normalisation constant `k`, as an indexed
sum over the common length. -/
theorem zip_mul_dw_sum (dw : ℚ) :
    ∀ (a b : List ℚ), ((a.zip b).map fun p => p.1 * p.2 * dw).sum =
      ∑ i in Finset.range (min a.length b.length), a.getD i 0 * b.getD i 0 * dw := by
  intro a
  induction a with
  | nil => intro b; simp
  | cons x xs ih =>
    intro b
    cases b with
    | nil => simp
    | cons y ys =>
      simp only [List.zip_cons_cons, List.map_cons, List.sum_cons, List.length_cons]
      rw [ih ys, Nat.succ_min_succ, Finset.sum_range_succ']
      simp only [List.getD_cons_succ, List.getD_cons_zero]
      ring

/-- The triple zipped product sum of the integration channels, as an indexed
sum over the common length. -/
theorem zip3_mul_dw_sum (dw : ℚ) :
    ∀ (a b c : List ℚ),
      ((zip3 a b c).map fun t => t.1 * t.2.1 * t.2.2 * dw).sum =
      ∑ i in Finset.range (min a.length (min b.length c.length)),
        a.getD i 0 * b.getD i 0 * c.getD i 0 * dw := by
  intro a
  induction a with
  | nil => intro b c; simp [zip3]
  | cons x xs ih =>
    intro b c
    cases b with
    | nil => simp [zip3]
    | cons y ys =>
      cases c with
      | nil => simp [zip3]
      | cons z zs =>
        simp only [zip3, List.zip_cons_cons, List.map_cons, List.sum_cons, List.length_cons]
        have ih' := ih ys zs
        simp only [zip3] at ih'
        rw [ih', Nat.succ_min_succ, Nat.succ_min_succ, Finset.sum_range_succ']
        simp only [List.getD_cons_succ, List.getD_cons_zero]
        ring

/-- C2: `spd_to_xyz_integration` aligns the spd, the illuminant and the three
CMF channels to the target shape, then returns
`k = 100 / Σ illuminant·ȳ·dw` and `X = k·Σ spd·illuminant·x̄·dw` (similarly
Y, Z), with the constant `dw` factor inside every summand. -/
theorem integration_formula :
    ∀ (spd illuminant : VSPD) (cmf : CMF) (shape : SpdShape) (dw : ℚ)
      (Ax Ay Az Ai As : VSPD),
      shape.interval = Interval.uniform dw →
      cmf.x_bar.align shape = some Ax →
      cmf.y_bar.align shape = some Ay →
      cmf.z_bar.align shape = some Az →
      illuminant.align shape = some Ai →
      spd.align shape = some As →
      spd_to_xyz_integration spd illuminant cmf shape =
        some (xyz
          ((100 / ∑ i in Finset.range (min Ai.values.length Ay.values.length),
              Ai.values.getD i 0 * Ay.values.getD i 0 * dw) *
            ∑ i in Finset.range (min As.values.length (min Ai.values.length Ax.values.length)),
              As.values.getD i 0 * Ai.values.getD i 0 * Ax.values.getD i 0 * dw)
          ((100 / ∑ i in Finset.range (min Ai.values.length Ay.values.length),
              Ai.values.getD i 0 * Ay.values.getD i 0 * dw) *
            ∑ i in Finset.range (min As.values.length (min Ai.values.length Ay.values.length)),
              As.values.getD i 0 * Ai.values.getD i 0 * Ay.values.getD i 0 * dw)
          ((100 / ∑ i in Finset.range (min Ai.values.length Ay.values.length),
              Ai.values.getD i 0 * Ay.values.getD i 0 * dw) *
            ∑ i in Finset.range (min As.values.length (min Ai.values.length Az.values.length)),
              As.values.getD i 0 * Ai.values.getD i 0 * Az.values.getD i 0 * dw)) := by
  intro spd illuminant cmf shape dw Ax Ay Az Ai As hint hx hy hz hi hs
  unfold spd_to_xyz_integration
  rw [hx, hy, hz, hi, hs]
  simp only [Option.bind_eq_bind, Option.some_bind, hint]
  rw [zip_mul_dw_sum dw Ai.values Ay.values,
    zip3_mul_dw_sum dw As.values Ai.values Ax.values,
    zip3_mul_dw_sum dw As.values Ai.values Ay.values,
    zip3_mul_dw_sum dw As.values Ai.values Az.values]
  rfl

/-- Concrete x̄ channel for the C2 witness. -/
def cxW : VSPD := VSPD.new [⟨395, 1⟩, ⟨400, 2⟩, ⟨405, 3⟩, ⟨410, 4⟩, ⟨415, 5⟩]

/-- Concrete ȳ channel for the C2 witness. -/
def cyW : VSPD := VSPD.new [⟨395, 2⟩, ⟨400, 1⟩, ⟨405, 2⟩, ⟨410, 1⟩, ⟨415, 2⟩]

/-- Concrete z̄ channel for the C2 witness. -/
def czW : VSPD := VSPD.new [⟨395, 0⟩, ⟨400, 1⟩, ⟨405, 0⟩, ⟨410, 1⟩, ⟨415, 0⟩]

/-- Concrete illuminant for the C2 witness. -/
def ciW : VSPD := VSPD.new [⟨395, 3⟩, ⟨400, 1⟩, ⟨405, 4⟩, ⟨410, 1⟩, ⟨415, 5⟩]

/-- Concrete reflectance spectrum for the C2 witness. -/
def csW : VSPD := VSPD.new [⟨395, 1⟩, ⟨400, 1⟩, ⟨405, 2⟩, ⟨410, 2⟩, ⟨415, 3⟩]

/-- C2 (witness): the integration formula evaluated on concrete 5nm data
(`k = 100/50 = 2`, `X = 340`, `Y = 190`, `Z = 30`). -/
theorem integration_formula_witness :
    (SpdShape.new 400 410 5).interval = Interval.uniform 5
    ∧ csW.align (SpdShape.new 400 410 5) =
        some (VSPD.mk [⟨400, 1⟩, ⟨405, 2⟩, ⟨410, 2⟩] (SpdShape.new 400 410 5))
    ∧ spd_to_xyz_integration csW ciW (CMF.mk cxW cyW czW) (SpdShape.new 400 410 5) =
        some (xyz 340 190 30) := by
  refine ⟨by with_unfolding_all decide, by with_unfolding_all decide, ?_⟩
  have h := integration_formula csW ciW (CMF.mk cxW cyW czW) (SpdShape.new 400 410 5) 5
    (VSPD.mk [⟨400, 2⟩, ⟨405, 3⟩, ⟨410, 4⟩] (SpdShape.new 400 410 5))
    (VSPD.mk [⟨400, 1⟩, ⟨405, 2⟩, ⟨410, 1⟩] (SpdShape.new 400 410 5))
    (VSPD.mk [⟨400, 1⟩, ⟨405, 0⟩, ⟨410, 1⟩] (SpdShape.new 400 410 5))
    (VSPD.mk [⟨400, 1⟩, ⟨405, 4⟩, ⟨410, 1⟩] (SpdShape.new 400 410 5))
    (VSPD.mk [⟨400, 1⟩, ⟨405, 2⟩, ⟨410, 2⟩] (SpdShape.new 400 410 5))
    (by with_unfolding_all decide) (by with_unfolding_all decide)
    (by with_unfolding_all decide) (by with_unfolding_all decide)
    (by with_unfolding_all decide) (by with_unfolding_all decide)
  exact h.trans (by with_unfolding_all decide)


/-! ## C10: Sprague interpolator knot table and evaluation domain -/

/-- `headD` as `getD 0`. -/
theorem headD_eq_getD {α : Type} (l : List α) (d : α) : l.headD d = l.getD 0 d := by
  cases l <;> rfl

/-- `getD` on an arithmetic-progression sample table. -/
theorem ap_samples_getD (n : ℕ) (start h : ℚ) (v : ℕ → ℚ) (spd : VSPD)
    (hsamples : spd.samples = (List.range n).map fun (k : ℕ) => Sample.mk (start + (k : ℚ) * h) (v k))
    (j : ℕ) (d : Sample) (hj : j < n) :
    spd.samples.getD j d = Sample.mk (start + j * h) (v j) := by
  rw [hsamples, List.getD_eq_getElem?_getD, List.getElem?_map, List.getElem?_range hj]
  rfl

/-- The last entry of an arithmetic-progression sample table. -/
theorem ap_samples_getLastD (n : ℕ) (start h : ℚ) (v : ℕ → ℚ) (spd : VSPD)
    (hn : 1 ≤ n)
    (hsamples : spd.samples = (List.range n).map fun (k : ℕ) => Sample.mk (start + (k : ℚ) * h) (v k)) :
    spd.samples.getLastD ⟨0, 0⟩ = Sample.mk (start + (n - 1 : ℕ) * h) (v (n - 1)) := by
  obtain ⟨n1, rfl⟩ : ∃ n1, n = n1 + 1 := ⟨n - 1, by omega⟩
  rw [hsamples, List.range_succ, List.map_append, List.map_singleton,
    List.getLastD_concat]
  simp

/-- The padded knot table of the Sprague interpolator over a uniformly spaced
spectrum is the arithmetic progression starting two steps below the domain. -/
theorem spragueX_eq (n : ℕ) (start h : ℚ) (v : ℕ → ℚ) (spd : VSPD)
    (hn : 2 ≤ n)
    (hsamples : spd.samples = (List.range n).map fun (k : ℕ) => Sample.mk (start + (k : ℚ) * h) (v k)) :
    (InterpolatorSprague.new spd).x =
      (List.range (n + 4)).map fun (j : ℕ) => (start - 2 * h) + (j : ℚ) * h := by
  obtain ⟨n2, rfl⟩ : ∃ n2, n = n2 + 2 := ⟨n - 2, by omega⟩
  have hhead : spd.samples.headD ⟨0, 0⟩ = Sample.mk start (v 0) := by
    rw [headD_eq_getD, ap_samples_getD (n2 + 2) start h v spd hsamples 0 ⟨0, 0⟩ (by omega)]
    congr 1
    push_cast
    ring
  have hget1 : spd.samples.getD 1 ⟨0, 0⟩ = Sample.mk (start + h) (v 1) := by
    rw [ap_samples_getD (n2 + 2) start h v spd hsamples 1 ⟨0, 0⟩ (by omega)]
    congr 1
    push_cast
    ring
  have hlast : spd.samples.getLastD ⟨0, 0⟩ =
      Sample.mk (start + (n2 + 1 : ℕ) * h) (v (n2 + 1)) := by
    rw [ap_samples_getLastD (n2 + 2) start h v spd (by omega) hsamples]
    have e : n2 + 2 - 1 = n2 + 1 := by omega
    rw [e]
  have hnm : spd.samples.map (fun s => s.nm) =
      (List.range (n2 + 2)).map fun (k : ℕ) => start + (k : ℚ) * h := by
    rw [hsamples, List.map_map]
    rfl
  have hr : List.range (n2 + 2 + 4) =
      (0 :: 1 :: (List.range (n2 + 2)).map fun k => k + 2) ++ [n2 + 4, n2 + 5] := by
    have e1 : n2 + 2 + 4 = 2 + (n2 + 2) + 2 := by omega
    rw [e1]
    rw [List.range_succ, List.range_succ, List.range_add]
    have : List.range 2 = [0, 1] := rfl
    rw [this]
    have : (List.range (n2 + 2)).map (fun x => 2 + x) =
        (List.range (n2 + 2)).map fun k => k + 2 :=
      List.map_congr_left fun a _ => by omega
    rw [this]
    simp [List.append_assoc]
    omega
  simp only [InterpolatorSprague.new, hhead, hget1, hlast, hnm]
  rw [hr, List.map_append, List.map_cons, List.map_cons, List.map_map]
  congr 1
  · push_cast; ring
  congr 1
  · push_cast; ring
  congr 1
  · apply List.map_congr_left
    intro k _
    simp only [Function.comp]
    push_cast
    ring
  · simp only [List.map_cons, List.map_nil]
    congr 1
    · push_cast; ring
    congr 1
    push_cast; ring

/-- The padded value table's entry `k+2` is the `k`-th sample value. -/
theorem spragueY_getD (n : ℕ) (start h : ℚ) (v : ℕ → ℚ) (spd : VSPD)
    (hsamples : spd.samples = (List.range n).map fun (k : ℕ) => Sample.mk (start + (k : ℚ) * h) (v k))
    (k : ℕ) (hk : k < n) :
    (InterpolatorSprague.new spd).y.getD (k + 2) 0 = v k := by
  simp only [InterpolatorSprague.new]
  rw [List.getD_cons_succ, List.getD_cons_succ, hsamples, List.map_map,
    List.getD_append _ _ _ k (by simpa using hk),
    List.getD_eq_getElem?_getD, List.getElem?_map, List.getElem?_range hk]
  rfl

/-- `findIdx?` over an increasing arithmetic progression: the first knot
exceeding `x` is at index `t+1` when `x` lies in `[a + t·d, a + (t+1)·d)`. -/
theorem findIdx_ap_some (d : ℚ) (hd : 0 < d) (t : ℕ) (a x : ℚ) (m : ℕ)
    (hle : a + t * d ≤ x) (hlt : x < a + (t + 1) * d) (hm : t + 1 < m) :
    ((List.range m).map fun (j : ℕ) => a + (j : ℚ) * d).findIdx? (fun u => decide (x < u)) =
      some (t + 1) := by
  rw [List.findIdx?_eq_some_iff_getElem]
  refine ⟨by simpa using hm, ?_, ?_⟩
  · rw [List.getElem_map]
    simp only [List.getElem_range, decide_eq_true_eq]
    push_cast
    push_cast at hlt
    linarith
  · intro j hj
    rw [List.getElem_map]
    simp only [List.getElem_range, decide_eq_true_eq, not_lt]
    have hjt : (j : ℚ) ≤ (t : ℚ) := by exact_mod_cast Nat.lt_succ_iff.mp hj
    have : a + (j : ℚ) * d ≤ a + (t : ℚ) * d := by nlinarith
    linarith

/-- `findIdx?` over an arithmetic progression finds nothing when `x` is at or
beyond the last knot. -/
theorem findIdx_ap_none (d : ℚ) (hd : 0 ≤ d) (a x : ℚ) (m : ℕ)
    (hge : a + (m - 1 : ℕ) * d ≤ x) :
    ((List.range m).map fun (j : ℕ) => a + (j : ℚ) * d).findIdx? (fun u => decide (x < u)) = none := by
  rw [List.findIdx?_eq_none_iff]
  intro u hu
  rw [List.mem_map] at hu
  obtain ⟨j, hj, rfl⟩ := hu
  rw [List.mem_range] at hj
  simp only [decide_eq_false_iff_not, not_lt]
  have hjm : (j : ℚ) ≤ ((m - 1 : ℕ) : ℚ) := by exact_mod_cast by omega
  nlinarith

/-- `findIdx?` over an arithmetic progression returns index 0 when `x` is
below the first knot. -/
theorem findIdx_ap_zero (d : ℚ) (a x : ℚ) (m : ℕ) (hm : 0 < m) (hx : x < a) :
    ((List.range m).map fun (j : ℕ) => a + (j : ℚ) * d).findIdx? (fun u => decide (x < u)) =
      some 0 := by
  rw [List.findIdx?_eq_some_iff_getElem]
  refine ⟨by simpa using hm, ?_, fun j hj => absurd hj (by omega)⟩
  rw [List.getElem_map]
  simp only [List.getElem_range, decide_eq_true_eq]
  push_cast
  linarith

/-- C10: over a uniformly spaced spectrum with interval `h > 0`, Sprague
evaluation completes for every query in `[start - 2h, end + 2h)` — which
covers the whole original domain `[start, end]`; at or beyond `end + 2h` the
linear knot search finds no knot exceeding `x` and evaluation fails (the
source's `unwrap` panics); below `start - 2h` the knot search returns
position 0 and the `position - 1` index subtraction underflows (the model's
`some 0 → none` branch). -/
theorem sprague_evaluate_domain :
    ∀ (n : ℕ) (start h : ℚ) (v : ℕ → ℚ) (spd : VSPD) (x : ℚ),
      2 ≤ n → 0 < h →
      spd.samples = ((List.range n).map fun (k : ℕ) => Sample.mk (start + (k : ℚ) * h) (v k)) →
      ((start - 2 * h ≤ x → x < (start + (n - 1 : ℕ) * h) + 2 * h →
          ((InterpolatorSprague.new spd).evaluate x).isSome = true)
      ∧ ((start + (n - 1 : ℕ) * h) + 2 * h ≤ x →
          (InterpolatorSprague.new spd).x.findIdx? (fun u => decide (x < u)) = none ∧
          (InterpolatorSprague.new spd).evaluate x = none)
      ∧ (x < start - 2 * h →
          (InterpolatorSprague.new spd).x.findIdx? (fun u => decide (x < u)) = some 0 ∧
          (InterpolatorSprague.new spd).evaluate x = none)) := by
  intro n start h v spd x hn hh hsamples
  have hX := spragueX_eq n start h v spd hn hsamples
  refine ⟨?_, ?_, ?_⟩
  · intro hlo hhi
    set a := start - 2 * h with ha
    have hr0 : (0 : ℚ) ≤ (x - a) / h := by
      apply div_nonneg _ (le_of_lt hh)
      linarith
    set t : ℕ := ⌊(x - a) / h⌋.toNat with ht
    have htq : (t : ℚ) = ⌊(x - a) / h⌋ := by
      rw [ht]
      exact_mod_cast Int.toNat_of_nonneg (Int.floor_nonneg.mpr hr0)
    have hle : a + t * h ≤ x := by
      have := Int.floor_le ((x - a) / h)
      rw [← htq] at this
      have := (mul_le_mul_right hh).mpr this
      rw [div_mul_cancel₀ _ (ne_of_gt hh)] at this
      linarith
    have hlt : x < a + (t + 1) * h := by
      have := Int.lt_floor_add_one ((x - a) / h)
      rw [← htq] at this
      have := (mul_lt_mul_right hh).mpr this
      rw [div_mul_cancel₀ _ (ne_of_gt hh)] at this
      push_cast at this ⊢
      linarith
    have hm : t + 1 < n + 4 := by
      have hrlt : (x - a) / h < ((n : ℚ) + 3) := by
        rw [div_lt_iff hh]
        have hcast : ((n - 1 : ℕ) : ℚ) = (n : ℚ) - 1 := by
          have : 1 ≤ n := by omega
          push_cast [this]
          ring
        rw [hcast] at hhi
        nlinarith
      have : ⌊(x - a) / h⌋ < (n : ℤ) + 3 := by
        rw [Int.floor_lt]
        push_cast
        exact hrlt
      omega
    have hfind : (InterpolatorSprague.new spd).x.findIdx? (fun u => decide (x < u)) =
        some (t + 1) := by
      rw [hX]
      exact findIdx_ap_some h hh t a x (n + 4) hle hlt hm
    unfold InterpolatorSprague.evaluate
    rw [hfind]
    rfl
  · intro hge
    have hfind : (InterpolatorSprague.new spd).x.findIdx? (fun u => decide (x < u)) =
        none := by
      rw [hX]
      apply findIdx_ap_none h (le_of_lt hh)
      have hc1 : ((n + 4 - 1 : ℕ) : ℚ) = (n : ℚ) + 3 := by push_cast; ring
      rw [hc1]
      have hcast : ((n - 1 : ℕ) : ℚ) = (n : ℚ) - 1 := by
        have : 1 ≤ n := by omega
        push_cast [this]
        ring
      rw [hcast] at hge
      nlinarith
    refine ⟨hfind, ?_⟩
    unfold InterpolatorSprague.evaluate
    rw [hfind]
  · intro hlt
    have hfind : (InterpolatorSprague.new spd).x.findIdx? (fun u => decide (x < u)) =
        some 0 := by
      rw [hX]
      exact findIdx_ap_zero h (start - 2 * h) x (n + 4) (by omega) hlt
    refine ⟨hfind, ?_⟩
    unfold InterpolatorSprague.evaluate
    rw [hfind]

/-- C10 (witness): the two-sample unit-interval spectrum — evaluation
succeeds at 2 (inside `[start-2h, end+2h)`), the knot search fails at 5, and
the index subtraction underflows at −10. -/
theorem sprague_evaluate_domain_witness :
    ((InterpolatorSprague.new (VSPD.new [⟨0, 0⟩, ⟨1, 0⟩])).evaluate 2).isSome = true
    ∧ (InterpolatorSprague.new (VSPD.new [⟨0, 0⟩, ⟨1, 0⟩])).x.findIdx?
        (fun u => decide ((5 : ℚ) < u)) = none
    ∧ (InterpolatorSprague.new (VSPD.new [⟨0, 0⟩, ⟨1, 0⟩])).evaluate 5 = none
    ∧ (InterpolatorSprague.new (VSPD.new [⟨0, 0⟩, ⟨1, 0⟩])).x.findIdx?
        (fun u => decide ((-10 : ℚ) < u)) = some 0
    ∧ (InterpolatorSprague.new (VSPD.new [⟨0, 0⟩, ⟨1, 0⟩])).evaluate (-10) = none := by
  have hs : (VSPD.new [⟨0, 0⟩, ⟨1, 0⟩] : VSPD).samples =
      ((List.range 2).map fun (k : ℕ) => Sample.mk ((0 : ℚ) + (k : ℚ) * 1) ((fun _ => (0 : ℚ)) k)) := by
    with_unfolding_all decide
  have h2 := sprague_evaluate_domain 2 0 1 (fun _ => 0) (VSPD.new [⟨0, 0⟩, ⟨1, 0⟩]) 2
    (by omega) (by norm_num) hs
  have h5 := sprague_evaluate_domain 2 0 1 (fun _ => 0) (VSPD.new [⟨0, 0⟩, ⟨1, 0⟩]) 5
    (by omega) (by norm_num) hs
  have hm10 := sprague_evaluate_domain 2 0 1 (fun _ => 0) (VSPD.new [⟨0, 0⟩, ⟨1, 0⟩]) (-10)
    (by omega) (by norm_num) hs
  refine ⟨h2.1 (by norm_num) (by norm_num), (h5.2.1 (by norm_num)).1,
    (h5.2.1 (by norm_num)).2, (hm10.2.2 (by norm_num)).1, (hm10.2.2 (by norm_num)).2⟩


/-! ## C7: align idempotence — helper lemmas -/

/-- The prefix loop of `extrapolate` produces nothing when its guard fails
immediately. -/
theorem whileLtPush_empty (step bound : ℚ) (f : ℚ → Sample) (fuel : ℕ) (x : ℚ)
    (h : ¬x < bound) : whileLtPush step bound f fuel x = [] := by
  cases fuel <;> simp [whileLtPush, h]

/-- The suffix loop of `extrapolate` produces nothing when its guard fails
immediately. -/
theorem whileLePush_empty (step bound : ℚ) (f : ℚ → Sample) (fuel : ℕ) (x : ℚ)
    (h : ¬x ≤ bound) : whileLePush step bound f fuel x = [] := by
  cases fuel <;> simp [whileLePush, h]

/-- `mapM` over `Option` succeeds when it succeeds pointwise. -/
theorem mapM_eq_map_of_some {α β : Type} (F : α → Option β) (G : α → β) :
    ∀ l : List α, (∀ x ∈ l, F x = some (G x)) → l.mapM F = some (l.map G) := by
  intro l
  induction l with
  | nil => intro _; rfl
  | cons x xs ih =>
    intro h
    rw [List.mapM_cons, h x (List.mem_cons_self x xs),
      ih fun y hy => h y (List.mem_cons_of_mem x hy)]
    rfl

/-- A satisfied predicate somewhere in the list makes `findIdx?` succeed. -/
theorem findIdx_isSome_of_mem {α : Type} (p : α → Bool) :
    ∀ l : List α, (∃ u ∈ l, p u = true) → ∀ i, (l.findIdx? p i).isSome = true := by
  intro l
  induction l with
  | nil => rintro ⟨u, hu, _⟩; simp at hu
  | cons x xs ih =>
    rintro ⟨u, hu, hpu⟩ i
    rw [List.findIdx?_cons]
    by_cases hx : p x = true
    · rw [if_pos hx]; rfl
    · rw [if_neg hx]
      rcases List.mem_cons.mp hu with h1 | h1
      · subst h1; exact absurd hpu hx
      · exact ih ⟨u, h1, hpu⟩ (i + 1)

/-- Sprague evaluation succeeds when the query is at or above the first knot
and strictly below some later knot. -/
theorem evaluate_isSome (interp : InterpolatorSprague) (x c0 : ℚ) (rest : List ℚ)
    (hne : interp.x = c0 :: rest) (hc0 : ¬x < c0) (hex : ∃ u ∈ rest, x < u) :
    ∃ val, interp.evaluate x = some val := by
  have hsome : ((rest.findIdx? fun u => decide (x < u)).isSome) = true := by
    refine findIdx_isSome_of_mem _ rest ?_ 0
    obtain ⟨u, hu, hxu⟩ := hex
    exact ⟨u, hu, decide_eq_true hxu⟩
  obtain ⟨j, hj⟩ := Option.isSome_iff_exists.mp hsome
  unfold InterpolatorSprague.evaluate
  rw [hne, List.findIdx?_cons, if_neg (by simp [hc0]), List.findIdx?_succ, hj]
  exact ⟨_, rfl⟩

/-- The quintic at `dx = 0` collapses to its constant coefficient. -/
theorem eval_poly_dx0 (a0 a1 a2 a3 a4 a5 : ℚ) :
    a0 + a1 * 0 + a2 * 0 ^ 2 + a3 * 0 ^ 3 + a4 * 0 ^ 4 + a5 * 0 ^ 5 = a0 := by ring

/-- The quintic at `dx = 1` is the coefficient sum. -/
theorem eval_poly_dx1 (a0 a1 a2 a3 a4 a5 : ℚ) :
    a0 + a1 * 1 + a2 * 1 ^ 2 + a3 * 1 ^ 3 + a4 * 1 ^ 4 + a5 * 1 ^ 5 =
      a0 + a1 + a2 + a3 + a4 + a5 := by ring

/-- The constant Sprague coefficient is the central sample. -/
theorem coeff_a_at0 (r : List ℚ) (i : ℕ) : (coeff_a r i).getD 0 0 = r.getD i 0 := by
  simp [coeff_a]

/-- The Sprague coefficient sum telescopes to the right-hand neighbour: the
interpolation polynomial passes through the next knot at `dx = 1`. -/
theorem coeff_a_sum (r : List ℚ) (i : ℕ) :
    (coeff_a r i).getD 0 0 + (coeff_a r i).getD 1 0 + (coeff_a r i).getD 2 0 +
      (coeff_a r i).getD 3 0 + (coeff_a r i).getD 4 0 + (coeff_a r i).getD 5 0 =
      r.getD (i + 1) 0 := by
  simp only [coeff_a, List.getD_cons_zero, List.getD_cons_succ]
  ring

/-- Sprague evaluation at a knot of a uniformly spaced table returns the
stored value exactly (in exact rational arithmetic): interior knots take the
`dx = 0` path, the final knot takes the clamped `dx = 1` path and lands on
the stored value by `coeff_a_sum`. -/
theorem sprague_eval_knot (n : ℕ) (f iv : ℚ) (w : ℕ → ℚ) (A : VSPD)
    (hn : 2 ≤ n) (hiv : 0 < iv)
    (hsamples : A.samples =
      (List.range n).map fun (k : ℕ) => Sample.mk (f + (k : ℚ) * iv) (w k))
    (k : ℕ) (hk : k < n) :
    (InterpolatorSprague.new A).evaluate (f + (k : ℚ) * iv) = some (w k) := by
  have hX := spragueX_eq n f iv w A hn hsamples
  have hlen : (InterpolatorSprague.new A).x.length = n + 4 := by
    rw [hX]; simp
  have hXget : ∀ j, j < n + 4 → (InterpolatorSprague.new A).x.getD j 0 =
      (f - 2 * iv) + (j : ℚ) * iv := by
    intro j hj
    rw [hX, List.getD_eq_getElem?_getD, List.getElem?_map, List.getElem?_range hj]
    rfl
  have hfind : (InterpolatorSprague.new A).x.findIdx?
      (fun u => decide (f + (k : ℚ) * iv < u)) = some (k + 3) := by
    rw [hX]
    exact findIdx_ap_some iv hiv (k + 2) (f - 2 * iv) (f + (k : ℚ) * iv) (n + 4)
      (le_of_eq (by push_cast; ring)) (by push_cast; nlinarith) (by omega)
  simp only [InterpolatorSprague.evaluate, hfind, hlen]
  have hsub : n + 4 - 4 = n := by omega
  rw [hsub]
  rcases Nat.lt_or_ge k (n - 1) with hklt | hkge
  · -- interior knot: dx = 0
    have hi : min (max (k + 2) 2) n = k + 2 := by omega
    rw [hi, hXget (k + 2) (by omega), hXget (k + 3) (by omega)]
    have hdx : (f + (k : ℚ) * iv - (f - 2 * iv + ((k + 2 : ℕ) : ℚ) * iv)) /
        (f - 2 * iv + ((k + 3 : ℕ) : ℚ) * iv - (f - 2 * iv + ((k + 2 : ℕ) : ℚ) * iv)) =
        0 := by
      rw [div_eq_zero_iff]
      left
      push_cast
      ring
    rw [hdx, eval_poly_dx0, coeff_a_at0,
      spragueY_getD n f iv w A hsamples k hk]
  · -- final knot: dx = 1
    have hkeq : k = n - 1 := by omega
    have hi : min (max (k + 2) 2) n = n := by omega
    rw [hi, hXget n (by omega), hXget (n + 1) (by omega)]
    have hdx : (f + (k : ℚ) * iv - (f - 2 * iv + (n : ℚ) * iv)) /
        (f - 2 * iv + ((n + 1 : ℕ) : ℚ) * iv - (f - 2 * iv + (n : ℚ) * iv)) = 1 := by
      have hkq : (k : ℚ) = (n : ℚ) - 1 := by
        have h1 : 1 ≤ n := by omega
        rw [hkeq]
        push_cast [h1]
        ring
      rw [hkq]
      rw [div_eq_one_iff_eq (by push_cast; nlinarith)]
      push_cast
      ring
    rw [hdx, eval_poly_dx1, coeff_a_sum]
    have hidx : n + 1 = (n - 1) + 2 := by omega
    rw [hidx, spragueY_getD n f iv w A hsamples (n - 1) (by omega), hkeq]


/-- C7 (amended): in the exact-arithmetic model, `align` is idempotent for
every uniform target shape whose range is contained in the spectrum's
domain: `spd.align(s).align(s) = spd.align(s)` (VSPD equality comparing the
shape and every sample's wavelength and value).  The unrestricted claim
fails when the target grid extends beyond the domain and misaligns with it
(`align_idempotence_cex`). -/
theorem align_idempotent_contained :
    ∀ (spd : VSPD) (s : SpdShape) (ivs : ℚ),
      s.interval = Interval.uniform ivs →
      0 < ivs → ivs ≤ s.end_ - s.start →
      (s.end_ - s.start) / ivs < 2 ^ 64 →
      spd.shape.start ≤ s.start → s.end_ ≤ spd.shape.end_ →
      2 ≤ spd.samples.length →
      spd.shape.start = (spd.samples.headD ⟨0, 0⟩).nm →
      spd.shape.end_ = (spd.samples.getLastD ⟨0, 0⟩).nm →
      (spd.samples.headD ⟨0, 0⟩).nm < (spd.samples.getD 1 ⟨0, 0⟩).nm →
      ((spd.align s).bind fun a => a.align s) = spd.align s := by
  intro spd s ivs hsi hivs hwide h64 hcs hce hlen hstart hend hmono
  have hq0 : (0 : ℚ) ≤ (s.end_ - s.start) / ivs :=
    div_nonneg (by linarith) (le_of_lt hivs)
  set N : ℕ := ⌊(s.end_ - s.start) / ivs⌋.toNat with hN
  have hNq : (N : ℚ) = (⌊(s.end_ - s.start) / ivs⌋ : ℤ) := by
    rw [hN]
    exact_mod_cast Int.toNat_of_nonneg (Int.floor_nonneg.mpr hq0)
  have hN1 : 1 ≤ N := by
    have h1 : (1 : ℤ) ≤ ⌊(s.end_ - s.start) / ivs⌋ := by
      rw [Int.le_floor]
      push_cast
      rw [le_div_iff₀ hivs]
      linarith
    omega
  have hNle : (N : ℚ) * ivs ≤ s.end_ - s.start := by
    have hfl := Int.floor_le ((s.end_ - s.start) / ivs)
    rw [← hNq] at hfl
    have h2 : (N : ℚ) * ivs ≤ ((s.end_ - s.start) / ivs) * ivs := by nlinarith
    rwa [div_mul_cancel₀ _ (ne_of_gt hivs)] at h2
  have hiter : s.iterList =
      some ((List.range (N + 1)).map fun (k : ℕ) => s.start + (k : ℚ) * ivs) := by
    simp only [SpdShape.iterList, hsi, toUsize_of_nonneg _ hq0 h64, Option.map_some', hN]
  -- evaluation of the first interpolator succeeds on [s.start, s.end_]
  have hevals : ∀ x : ℚ, s.start ≤ x → x ≤ s.end_ →
      ∃ val, (InterpolatorSprague.new spd).evaluate x = some val := by
    intro x hxlo hxhi
    have hiv1 : 0 < (spd.samples.getD 1 ⟨0, 0⟩).nm - (spd.samples.headD ⟨0, 0⟩).nm := by
      linarith
    apply evaluate_isSome (InterpolatorSprague.new spd) x
      ((spd.samples.headD ⟨0, 0⟩).nm -
        ((spd.samples.getD 1 ⟨0, 0⟩).nm - (spd.samples.headD ⟨0, 0⟩).nm) * 2)
      (((spd.samples.headD ⟨0, 0⟩).nm -
        ((spd.samples.getD 1 ⟨0, 0⟩).nm - (spd.samples.headD ⟨0, 0⟩).nm)) ::
       (spd.samples.map (fun t => t.nm) ++
        [(spd.samples.getLastD ⟨0, 0⟩).nm +
          ((spd.samples.getD 1 ⟨0, 0⟩).nm - (spd.samples.headD ⟨0, 0⟩).nm),
         (spd.samples.getLastD ⟨0, 0⟩).nm +
          ((spd.samples.getD 1 ⟨0, 0⟩).nm - (spd.samples.headD ⟨0, 0⟩).nm) * 2]))
      rfl
    · rw [not_lt]
      have hf1 : (spd.samples.headD ⟨0, 0⟩).nm ≤ s.start := hstart ▸ hcs
      linarith
    · refine ⟨(spd.samples.getLastD ⟨0, 0⟩).nm +
        ((spd.samples.getD 1 ⟨0, 0⟩).nm - (spd.samples.headD ⟨0, 0⟩).nm) * 2, ?_, ?_⟩
      · apply List.mem_cons_of_mem
        apply List.mem_append_right
        simp
      · have hl1 : x ≤ (spd.samples.getLastD ⟨0, 0⟩).nm := by
          rw [← hend]
          linarith
        linarith
  have hgrid_bounds : ∀ k : ℕ, k < N + 1 →
      s.start ≤ s.start + (k : ℚ) * ivs ∧ s.start + (k : ℚ) * ivs ≤ s.end_ := by
    intro k hkN
    have hk0 : (0 : ℚ) ≤ (k : ℚ) := Nat.cast_nonneg k
    constructor
    · nlinarith
    · have hkq : (k : ℚ) ≤ (N : ℚ) := by exact_mod_cast Nat.lt_succ_iff.mp hkN
      nlinarith
  have hclamp :
      ({ s with start := max s.start spd.start, end_ := min s.end_ spd.stop } : SpdShape) =
        s := by
    rw [show max s.start spd.start = s.start from max_eq_left hcs,
      show min s.end_ spd.stop = s.end_ from min_eq_left hce]
  have hpoint : ∀ nm ∈ (List.range (N + 1)).map fun (k : ℕ) => s.start + (k : ℚ) * ivs,
      ((InterpolatorSprague.new spd).evaluate nm).map (fun v => Sample.mk nm v) =
        some (Sample.mk nm (((InterpolatorSprague.new spd).evaluate nm).getD 0)) := by
    intro nm hnm
    rw [List.mem_map] at hnm
    obtain ⟨k, hkmem, rfl⟩ := hnm
    rw [List.mem_range] at hkmem
    obtain ⟨val, hval⟩ := hevals _ (hgrid_bounds k hkmem).1 (hgrid_bounds k hkmem).2
    rw [hval]
    rfl
  have hinterp1 : spd.interpolate s = some (VSPD.mk
      ((List.range (N + 1)).map fun (k : ℕ) =>
        Sample.mk (s.start + (k : ℚ) * ivs)
          (((InterpolatorSprague.new spd).evaluate (s.start + (k : ℚ) * ivs)).getD 0)) s) := by
    simp only [VSPD.interpolate, hclamp, hiter]
    rw [mapM_eq_map_of_some _
      (fun nm => Sample.mk nm (((InterpolatorSprague.new spd).evaluate nm).getD 0)) _ hpoint,
      Option.map_some', List.map_map]
    rfl
  have hextrap : ∀ A : VSPD, A.shape = s →
      A.extrapolate s = some (VSPD.mk A.samples (SpdShape.new s.start s.end_ ivs)) := by
    intro A hAs
    simp only [VSPD.extrapolate, VSPD.start, VSPD.stop, hAs, hsi, min_self, max_self,
      Option.map_some']
    rw [whileLtPush_empty _ _ _ _ _ (lt_irrefl s.start),
      whileLePush_empty _ _ _ _ _ (by linarith)]
    simp
  have halign1 : spd.align s = some (VSPD.mk
      ((List.range (N + 1)).map fun (k : ℕ) =>
        Sample.mk (s.start + (k : ℚ) * ivs)
          (((InterpolatorSprague.new spd).evaluate (s.start + (k : ℚ) * ivs)).getD 0))
      (SpdShape.new s.start s.end_ ivs)) := by
    unfold VSPD.align
    rw [hinterp1, Option.some_bind]
    exact hextrap _ rfl
  set A1samples : List Sample := (List.range (N + 1)).map fun (k : ℕ) =>
      Sample.mk (s.start + (k : ℚ) * ivs)
        (((InterpolatorSprague.new spd).evaluate (s.start + (k : ℚ) * ivs)).getD 0)
    with hA1s
  have hknot : ∀ k : ℕ, k < N + 1 →
      (InterpolatorSprague.new
        (VSPD.mk A1samples (SpdShape.new s.start s.end_ ivs))).evaluate
          (s.start + (k : ℚ) * ivs) =
      some (((InterpolatorSprague.new spd).evaluate (s.start + (k : ℚ) * ivs)).getD 0) := by
    intro k hk
    exact sprague_eval_knot (N + 1) s.start ivs
      (fun j => ((InterpolatorSprague.new spd).evaluate (s.start + (j : ℚ) * ivs)).getD 0)
      (VSPD.mk A1samples (SpdShape.new s.start s.end_ ivs))
      (by omega) hivs rfl k hk
  have hclamp2 :
      ({ s with start := max s.start (VSPD.mk A1samples (SpdShape.new s.start s.end_ ivs)).start, end_ := min s.end_ (VSPD.mk A1samples (SpdShape.new s.start s.end_ ivs)).stop } : SpdShape) =
        s := by
    show ({ s with start := max s.start s.start, end_ := min s.end_ s.end_ } : SpdShape) = s
    rw [max_self, min_self]
  have hpoint2 : ∀ nm ∈ (List.range (N + 1)).map fun (k : ℕ) => s.start + (k : ℚ) * ivs,
      ((InterpolatorSprague.new
          (VSPD.mk A1samples (SpdShape.new s.start s.end_ ivs))).evaluate nm).map
        (fun v => Sample.mk nm v) =
      some (Sample.mk nm (((InterpolatorSprague.new
          (VSPD.mk A1samples (SpdShape.new s.start s.end_ ivs))).evaluate nm).getD 0)) := by
    intro nm hnm
    rw [List.mem_map] at hnm
    obtain ⟨k, hkmem, rfl⟩ := hnm
    rw [List.mem_range] at hkmem
    rw [hknot k hkmem]
    rfl
  have hinterp2 : (VSPD.mk A1samples (SpdShape.new s.start s.end_ ivs)).interpolate s =
      some (VSPD.mk A1samples s) := by
    simp only [VSPD.interpolate, hclamp2, hiter]
    rw [mapM_eq_map_of_some _
      (fun nm => Sample.mk nm (((InterpolatorSprague.new
        (VSPD.mk A1samples (SpdShape.new s.start s.end_ ivs))).evaluate nm).getD 0)) _ hpoint2,
      Option.map_some']
    have hGA : ((List.range (N + 1)).map fun (k : ℕ) => s.start + (k : ℚ) * ivs).map
        (fun nm => Sample.mk nm (((InterpolatorSprague.new
          (VSPD.mk A1samples (SpdShape.new s.start s.end_ ivs))).evaluate nm).getD 0)) =
        A1samples := by
      rw [List.map_map, hA1s]
      apply List.map_congr_left
      intro k hkmem
      rw [List.mem_range] at hkmem
      simp only [Function.comp]
      rw [hknot k hkmem]
      rfl
    rw [hGA]
  have halign2 : (VSPD.mk A1samples (SpdShape.new s.start s.end_ ivs)).align s =
      some (VSPD.mk A1samples (SpdShape.new s.start s.end_ ivs)) := by
    unfold VSPD.align
    rw [hinterp2, Option.some_bind]
    exact hextrap _ rfl
  rw [halign1, Option.some_bind, halign2]


/-- C7 counterexample: `align` is not idempotent in general. Aligning the
385–485nm spectrum to the shape 320–520nm @ 10nm and aligning the result to the
same shape again yields a different spectrum: the first alignment clamps the
interpolation range to 385–485 and so produces interior samples at 385, 395, …
before flat-filling outward on the 10nm grid from 380 down and from 490 up,
while the second alignment (whose input now spans 320–520 exactly) samples at
390, 400, …. -/
theorem align_idempotence_cex :
    ((spd385.align (SpdShape.new 320 520 10)).bind fun a =>
      a.align (SpdShape.new 320 520 10)) ≠
    spd385.align (SpdShape.new 320 520 10) := by
  with_unfolding_all decide

/-- Witness for `align_idempotent_contained`: the 380–480nm @ 20nm test
spectrum aligned to the contained shape 400–460nm @ 20nm is a fixed point of a
second alignment to the same shape. -/
theorem align_idempotent_contained_witness :
    ((spd380to480.align (SpdShape.new 400 460 20)).bind fun a =>
      a.align (SpdShape.new 400 460 20)) =
    spd380to480.align (SpdShape.new 400 460 20) :=
  align_idempotent_contained spd380to480 (SpdShape.new 400 460 20) 20
    (by with_unfolding_all decide)
    (by with_unfolding_all decide)
    (by with_unfolding_all decide)
    (by with_unfolding_all decide)
    (by with_unfolding_all decide)
    (by with_unfolding_all decide)
    (by with_unfolding_all decide)
    (by with_unfolding_all decide)
    (by with_unfolding_all decide)
    (by with_unfolding_all decide)

end Colorspace
